import Mathlib

/-!
# SecondSense llama JNI bridge: a shallow embedding

Source: `app/src/main/cpp/secondsense-llama-jni.cpp`.

Conventions of the embedding.

* A `std::string` is the list of its bytes (`List Nat`, each byte a value
  `0..255`); `c_str()` of it is the part before the first `0x00` byte.
* `int` variables are modelled by `Int`; the values involved (reference
  counts, token counts, positions) stay far inside the 32-bit range, where
  C++ arithmetic and integer arithmetic agree.
* Pointers held by a session are modelled by their nullness (`Bool`,
  `true` = not `nullptr`).
* The llama.cpp engine is external. Its state is an arbitrary type `σ` and
  every call into it is a field of `Engine σ`; all theorems hold for every
  engine.
-/

namespace SecondSense

/-! ## Text helpers: `is_valid_utf8`, `has_complete_json_object` -/

/-- The bytes a `const char *` reader sees for the buffer `s`: everything
before the first `0x00` byte (the terminator when `s` has no such byte). -/
def c_str (s : List Nat) : List Nat :=
  s.takeWhile (fun b => b != 0x00)

/-- The scanning loop of `is_valid_utf8` (lines 150-171), one byte per step.
The first argument is the number of iterations the inner `for` loop
(lines 165-170) still has to run, that is `num - i`; it is `0` while the
outer `while` loop is at a lead byte. The end of the list is the `0x00`
terminator of the C string: at a lead position it ends the `while` loop
(`return true`), at a continuation position it fails the `10xxxxxx` test. -/
def utf8_scan : Nat → List Nat → Bool
  | 0, [] => true
  | 0, b :: rest =>
    if b = 0x00 then true
    else if b &&& 0x80 = 0x00 then utf8_scan 0 rest
    else if b &&& 0xE0 = 0xC0 then utf8_scan 1 rest
    else if b &&& 0xF0 = 0xE0 then utf8_scan 2 rest
    else if b &&& 0xF8 = 0xF0 then utf8_scan 3 rest
    else false
  | _ + 1, [] => false
  | k + 1, b :: rest =>
    if b &&& 0xC0 ≠ 0x80 then false else utf8_scan k rest

/-- The function `is_valid_utf8(text)` for a non-null `text` pointing at the
bytes `text` followed by the terminator (lines 146-174). -/
def is_valid_utf8 (text : List Nat) : Bool :=
  utf8_scan 0 text

/-- The number of continuation bytes the high bits of a lead byte announce
(section 4.7 of the specification): none for `0xxxxxxx`, one for `110xxxxx`,
two for `1110xxxx`, three for `11110xxx`; any other byte is not a lead byte. -/
def announced (b : Nat) : Option Nat :=
  if b &&& 0x80 = 0x00 then some 0
  else if b &&& 0xE0 = 0xC0 then some 1
  else if b &&& 0xF0 = 0xE0 then some 2
  else if b &&& 0xF8 = 0xF0 then some 3
  else none

/-- A byte string that is a concatenation of complete units: each unit is a
lead byte followed by exactly the number of `10xxxxxx` continuation bytes that
the lead byte announces. This is the property in the words of the
specification, to be compared with `is_valid_utf8`. -/
inductive CompleteUnits : List Nat → Prop where
  | nil : CompleteUnits []
  | unit (b n : Nat) (cs rest : List Nat) :
      announced b = some n → cs.length = n → (∀ c ∈ cs, c &&& 0xC0 = 0x80) →
      CompleteUnits rest → CompleteUnits (b :: (cs ++ rest))

/-- Local variables of `has_complete_json_object` (lines 177-180). -/
structure JsonScan where
  depth : Int
  start : Int
  in_string : Bool
  escaping : Bool
deriving DecidableEq

/-- Values of the locals before the loop (lines 177-180). -/
def JsonScan.init : JsonScan :=
  { depth := 0, start := -1, in_string := false, escaping := false }

/-- One iteration of the `for` loop of `has_complete_json_object`
(lines 183-214) at index `i` on character `ch`; `none` is `return true`. -/
def json_step (st : JsonScan) (i : Int) (ch : Nat) : Option JsonScan :=
  if st.in_string then
    if st.escaping then some { st with escaping := false }
    else if ch = 92 then some { st with escaping := true }
    else if ch = 34 then some { st with in_string := false }
    else some st
  else if ch = 34 then some { st with in_string := true }
  else if ch = 123 then
    some { st with start := if st.depth = 0 then i else st.start, depth := st.depth + 1 }
  else if ch = 125 ∧ st.depth > 0 then
    if st.depth - 1 = 0 ∧ st.start ≥ 0 then none
    else some { st with depth := st.depth - 1 }
  else some st

/-- The `for` loop of `has_complete_json_object` from index `i` over the
remaining characters: `none` when an iteration returned `true`, otherwise the
locals when the loop ran off the end of the text. -/
def json_run : List Nat → Int → JsonScan → Option JsonScan
  | [], _, st => some st
  | ch :: rest, i, st =>
    match json_step st i ch with
    | none => none
    | some st' => json_run rest (i + 1) st'

/-- The function `has_complete_json_object(text)` (lines 176-218). -/
def has_complete_json_object (text : List Nat) : Bool :=
  (json_run text 0 JsonScan.init).isNone

/-- Whether the end of a text lies inside a quoted string, in the words of the
specification (section 4.8) and without reference to the scanner: outside a
string a quote (34) opens one; inside a string a backslash (92) takes the next
character with it, whatever it is, so that an escaped quote does not close the
string, and any other quote closes it. The first argument says whether the
text starts inside a string. -/
def inside_quoted_string : Bool → List Nat → Bool
  | false, [] => false
  | false, ch :: t =>
    if ch = 34 then inside_quoted_string true t else inside_quoted_string false t
  | true, [] => true
  | true, [ch] => if ch = 34 then false else true
  | true, ch :: c :: t =>
    if ch = 92 then inside_quoted_string true t
    else if ch = 34 then inside_quoted_string false (c :: t)
    else inside_quoted_string true (c :: t)

/-! ## Sessions and the backend reference count -/

/-- The struct `NativeSession` (lines 21-28). A pointer field is `true` when
it is not `nullptr`; `batch_token` and `batch_embd` are the two pointers of
`batch` that the code tests. -/
structure NativeSession where
  model : Bool
  context : Bool
  batch_token : Bool
  batch_embd : Bool
  sampler : Bool
  n_ctx : Int
  n_batch : Int
deriving DecidableEq

/-- A value-initialised `NativeSession` (the defaults of lines 22-27). -/
def NativeSession.empty : NativeSession :=
  { model := false, context := false, batch_token := false, batch_embd := false,
    sampler := false, n_ctx := 0, n_batch := 0 }

/-- The fields of `llama_context_params` that `nativeLoadModel` sets
(lines 262-266). -/
structure ContextParams where
  n_ctx : Int
  n_batch : Int
  n_ubatch : Int
  n_threads : Int
  n_threads_batch : Int
deriving DecidableEq

/-- Process state seen by load and unload. `g_backend_ref_count` is the global
of line 31. `backend_up` says whether the engine is initialised
(`llama_backend_init` called and `llama_backend_free` not called since).
`models`, `contexts`, `batches`, `samplers` and `session_objects` count the
live native objects of each kind. `heap` maps the address of a live
`NativeSession` (a handle) to its contents, and `next_addr` is the address the
allocator hands out next. `init_calls`, `free_calls`, `release_calls` and
`context_params_log` are bookkeeping of the model: how often
`llama_backend_init`, `llama_backend_free` and `release_backend` ran, and the
parameters of every `llama_init_from_model` call, latest first. -/
structure World where
  g_backend_ref_count : Int
  backend_up : Bool
  init_calls : Nat
  free_calls : Nat
  release_calls : Nat
  models : Int
  contexts : Int
  batches : Int
  samplers : Int
  session_objects : Int
  heap : Nat → Option NativeSession
  next_addr : Nat
  context_params_log : List ContextParams

/-- The process at start-up: count `0` (line 31), engine not initialised,
nothing allocated. -/
def World.init : World :=
  { g_backend_ref_count := 0, backend_up := false, init_calls := 0, free_calls := 0,
    release_calls := 0, models := 0, contexts := 0, batches := 0, samplers := 0,
    session_objects := 0, heap := fun _ => none, next_addr := 1,
    context_params_log := [] }

/-- The function `ensure_backend_initialized()` (lines 58-66); the mutex
makes the body atomic. -/
def ensure_backend_initialized (w : World) : World :=
  let w1 :=
    if w.g_backend_ref_count = 0 then
      { w with backend_up := true, init_calls := w.init_calls + 1 }
    else w
  { w1 with g_backend_ref_count := w1.g_backend_ref_count + 1 }

/-- The function `release_backend()` (lines 68-76); the mutex makes the body
atomic. -/
def release_backend (w : World) : World :=
  let w0 := { w with release_calls := w.release_calls + 1 }
  if w0.g_backend_ref_count ≤ 0 then w0
  else
    let w1 := { w0 with g_backend_ref_count := w0.g_backend_ref_count - 1 }
    if w1.g_backend_ref_count = 0 then
      { w1 with backend_up := false, free_calls := w1.free_calls + 1 }
    else w1

/-- The engine call `llama_model_load_from_file`: the engine answers `ok`; a
model object is live afterwards exactly when it does. -/
def World.llama_model_load_from_file (w : World) (ok : Bool) : World × Bool :=
  if ok then ({ w with models := w.models + 1 }, true) else (w, false)

/-- The engine call `llama_model_free`. -/
def World.llama_model_free (w : World) : World :=
  { w with models := w.models - 1 }

/-- The engine call `llama_init_from_model`. -/
def World.llama_init_from_model (w : World) (params : ContextParams) (ok : Bool) :
    World × Bool :=
  let w1 := { w with context_params_log := params :: w.context_params_log }
  if ok then ({ w1 with contexts := w1.contexts + 1 }, true) else (w1, false)

/-- The engine call `llama_free`. -/
def World.llama_free (w : World) : World :=
  { w with contexts := w.contexts - 1 }

/-- The engine call `llama_batch_init(n_batch, 0, 1)`: with `embd = 0` only
the token array is allocated, so `batch.embd` stays null. -/
def World.llama_batch_init (w : World) (ok : Bool) : World × Bool :=
  if ok then ({ w with batches := w.batches + 1 }, true) else (w, false)

/-- The engine call `llama_batch_free`. -/
def World.llama_batch_free (w : World) : World :=
  { w with batches := w.batches - 1 }

/-- The engine call `common_sampler_init`. -/
def World.common_sampler_init (w : World) (ok : Bool) : World × Bool :=
  if ok then ({ w with samplers := w.samplers + 1 }, true) else (w, false)

/-- The engine call `common_sampler_free`. -/
def World.common_sampler_free (w : World) : World :=
  { w with samplers := w.samplers - 1 }

/-- The function `free_session(session)` for a non-null `session`
(lines 78-97): the updated process state and the updated struct. -/
def free_session (w : World) (session : NativeSession) : World × NativeSession :=
  let p1 : World × NativeSession :=
    if session.sampler then (w.common_sampler_free, { session with sampler := false })
    else (w, session)
  let p2 : World × NativeSession :=
    if p1.2.batch_token ∨ p1.2.batch_embd then
      (p1.1.llama_batch_free, { p1.2 with batch_token := false, batch_embd := false })
    else p1
  let p3 : World × NativeSession :=
    if p2.2.context then (p2.1.llama_free, { p2.2 with context := false }) else p2
  if p3.2.model then (p3.1.llama_model_free, { p3.2 with model := false }) else p3

/-- The function `recreate_sampler(session, temperature, top_p)` for a
non-null `session` (lines 99-116), as load uses it; `ok` is the engine's
answer to `common_sampler_init`. -/
def World.recreate_sampler (w : World) (session : NativeSession) (ok : Bool) :
    World × NativeSession × Bool :=
  if session.model = false then (w, session, false)
  else
    let p1 : World × NativeSession :=
      if session.sampler then (w.common_sampler_free, { session with sampler := false })
      else (w, session)
    let r := p1.1.common_sampler_init ok
    (r.1, { p1.2 with sampler := r.2 }, r.2)

/-- The answers of the engine to the four creation calls of one
`nativeLoadModel` attempt (`true` = a non-null result). -/
structure LoadOutcome where
  model_ok : Bool
  context_ok : Bool
  batch_ok : Bool
  sampler_ok : Bool
deriving DecidableEq

/-- The exceptions `nativeLoadModel` throws, by message (lines 232-287). -/
inductive LoadError where
  | path_null
  | path_empty
  | model_load_failed
  | context_create_failed
  | batch_alloc_failed
  | sampler_init_failed
deriving DecidableEq

/-- Destruction of the `NativeSession` object itself: the `unique_ptr`
going out of scope on a failing load, `delete session` on unload. -/
def World.delete_session_object (w : World) : World :=
  { w with session_objects := w.session_objects - 1 }

/-- The function `nativeLoadModel(modelPath, contextSize, threads)`
(lines 224-297). `modelPath = none` is a null `jstring`, otherwise the bytes
`GetStringUTFChars` yields. The result is the thrown exception or the returned
handle, the address of the new session. -/
def Java_com_secondsense_llm_LlamaNativeBridge_nativeLoadModel (w : World)
    (modelPath : Option (List Nat)) (contextSize threads : Int) (o : LoadOutcome) :
    World × Except LoadError Nat :=
  match modelPath with
  | none => (w, .error .path_null)
  | some path =>
    if path = [] then (w, .error .path_empty)
    else
      let w := { w with session_objects := w.session_objects + 1 }
      let session := NativeSession.empty
      let w := ensure_backend_initialized w
      let r := w.llama_model_load_from_file o.model_ok
      let w := r.1
      let session := { session with model := r.2 }
      if session.model = false then
        let w := (free_session w session).1
        let w := release_backend w
        (w.delete_session_object, .error .model_load_failed)
      else
        let session := { session with n_ctx := max 512 contextSize }
        let session := { session with n_batch := min session.n_ctx 512 }
        let n_threads : Int := max 1 threads
        let context_params : ContextParams :=
          { n_ctx := session.n_ctx, n_batch := session.n_batch, n_ubatch := session.n_batch,
            n_threads := n_threads, n_threads_batch := n_threads }
        let r := w.llama_init_from_model context_params o.context_ok
        let w := r.1
        let session := { session with context := r.2 }
        if session.context = false then
          let w := (free_session w session).1
          let w := release_backend w
          (w.delete_session_object, .error .context_create_failed)
        else
          let r := w.llama_batch_init o.batch_ok
          let w := r.1
          let session := { session with batch_token := r.2 }
          if session.batch_token = false then
            let w := (free_session w session).1
            let w := release_backend w
            (w.delete_session_object, .error .batch_alloc_failed)
          else
            let r := w.recreate_sampler session o.sampler_ok
            let w := r.1
            let session := r.2.1
            if r.2.2 = false then
              let w := (free_session w session).1
              let w := release_backend w
              (w.delete_session_object, .error .sampler_init_failed)
            else
              let handle := w.next_addr
              ({ w with heap := fun a => if a = handle then some session else w.heap a,
                        next_addr := w.next_addr + 1 }, .ok handle)

/-- The function `nativeUnloadModel(handle)` (lines 301-312). `none` is
undefined behaviour: a non-zero handle that is not the address of a live
session. -/
def Java_com_secondsense_llm_LlamaNativeBridge_nativeUnloadModel (w : World) (handle : Nat) :
    Option World :=
  if handle = 0 then some w
  else
    match w.heap handle with
    | none => none
    | some session =>
      let w := (free_session w session).1
      let w := { w.delete_session_object with
                 heap := fun a => if a = handle then none else w.heap a }
      some (release_backend w)

/-- The backend operations of claim C6: `ensure_backend_initialized()`,
`release_backend()` and `nativeUnloadModel(0)`. -/
inductive BackendOp where
  | acquire
  | release
  | unload_zero
deriving DecidableEq

/-- Effect of one backend operation. -/
def BackendOp.apply (w : World) : BackendOp → World
  | .acquire => ensure_backend_initialized w
  | .release => release_backend w
  | .unload_zero => (Java_com_secondsense_llm_LlamaNativeBridge_nativeUnloadModel w 0).getD w

/-- Effect of a sequence of backend operations, first to last. -/
def run_backend (ops : List BackendOp) (w : World) : World :=
  ops.foldl BackendOp.apply w

/-- A call of the host into the lifecycle interface. -/
inductive HostOp where
  | load (modelPath : Option (List Nat)) (contextSize threads : Int) (o : LoadOutcome)
  | unload (handle : Nat)

/-- Effect of one host call; `none` when it is undefined behaviour. -/
def HostOp.apply (w : World) : HostOp → Option World
  | .load p c t o => some (Java_com_secondsense_llm_LlamaNativeBridge_nativeLoadModel w p c t o).1
  | .unload h => Java_com_secondsense_llm_LlamaNativeBridge_nativeUnloadModel w h

/-- Effect of a sequence of host calls, first to last. -/
def run_host : List HostOp → World → Option World
  | [], w => some w
  | op :: rest, w =>
    match op.apply w with
    | none => none
    | some w1 => run_host rest w1

/-- The invariant of the states the host can reach by load and unload calls:
the reference count is not negative, the engine is initialised exactly when
it is positive, the count equals the number of live sessions (addresses below
`next_addr` holding a session), no session lives at or above `next_addr`, and
address 0 is never handed out. -/
def HostInv (w : World) : Prop :=
  0 ≤ w.g_backend_ref_count ∧
  (w.backend_up = true ↔ 0 < w.g_backend_ref_count) ∧
  w.g_backend_ref_count
    = (((List.range w.next_addr).countP (fun a => (w.heap a).isSome) : Nat) : Int) ∧
  (∀ a, w.next_addr ≤ a → w.heap a = none) ∧
  1 ≤ w.next_addr ∧
  w.heap 0 = none

/-! ## The engine, batched decoding and generation -/

/-- One entry added to the batch by `common_batch_add(batch, token, pos,
{0}, logits)`. -/
structure BatchEntry where
  token : Int
  pos : Int
  seq_id : List Int
  logits : Bool
deriving DecidableEq

/-- The calls `nativeGenerate` makes into llama.cpp, over an engine state `σ`
(model, context with its memory and logits, sampler with its history and
random state). `llama_decode` returns its status; `common_sampler_init`
answers whether the new sampler is non-null (its temperature and top-p
arguments are floats and are left inside the engine's state). -/
structure Engine (σ : Type) where
  llama_memory_clear : σ → σ
  common_sampler_free : σ → σ
  common_sampler_init : σ → σ × Bool
  common_tokenize : σ → List Nat → List Int
  llama_decode : σ → List BatchEntry → σ × Int
  common_sampler_sample : σ → σ × Int
  common_sampler_accept : σ → Int → σ
  llama_vocab_is_eog : σ → Int → Bool
  common_token_to_piece : σ → Int → List Nat

/-- The function `recreate_sampler(session, temperature, top_p)` for a
non-null `session` (lines 99-116), as generate uses it. -/
def recreate_sampler {σ : Type} (E : Engine σ) (s : σ) (session : NativeSession) :
    σ × NativeSession × Bool :=
  if session.model = false then (s, session, false)
  else
    let p1 : σ × NativeSession :=
      if session.sampler then (E.common_sampler_free s, { session with sampler := false })
      else (s, session)
    let r := E.common_sampler_init p1.1
    (r.1, { p1.2 with sampler := r.2 }, r.2)

/-- The inner loop of `decode_tokens_in_batches` (lines 131-134): the entries
added to the cleared batch for the chunk starting at index `i`. -/
def batch_entries (tokens : List Int) (start_pos : Int) (compute_last_logit : Bool)
    (i cur_batch_size : Int) : List BatchEntry :=
  (List.range cur_batch_size.toNat).map fun (j : Nat) =>
    { token := tokens.getD (i + (j : Int)).toNat 0,
      pos := start_pos + i + (j : Int),
      seq_id := [0],
      logits := compute_last_logit && decide (i + (j : Int) = (tokens.length : Int) - 1) }

/-- The outer loop of `decode_tokens_in_batches` (lines 127-141) from index
`i`: the engine state afterwards, the batches submitted to `llama_decode` in
order, and the value returned. The first argument bounds the number of
iterations; `none` means the bound was reached with the loop still running. -/
def decode_loop {σ : Type} (E : Engine σ) (n_batch : Int) (tokens : List Int)
    (start_pos : Int) (compute_last_logit : Bool) :
    Nat → Int → σ → Option (σ × List (List BatchEntry) × Bool)
  | 0, i, s => if i < (tokens.length : Int) then none else some (s, [], true)
  | fuel + 1, i, s =>
    if i < (tokens.length : Int) then
      let cur_batch_size := min ((tokens.length : Int) - i) n_batch
      let batch := batch_entries tokens start_pos compute_last_logit i cur_batch_size
      let r := E.llama_decode s batch
      if r.2 ≠ 0 then some (r.1, [batch], false)
      else
        match decode_loop E n_batch tokens start_pos compute_last_logit fuel (i + n_batch)
          r.1 with
        | none => none
        | some (s', batches, ok) => some (s', batch :: batches, ok)
    else some (s, [], true)

/-- The function `decode_tokens_in_batches(session, tokens, start_pos,
compute_last_logit)` (lines 118-144); `session = none` is a null pointer. The loop is run for at
most `tokens.length` iterations, which is enough whenever `n_batch ≥ 1`. -/
def decode_tokens_in_batches {σ : Type} (E : Engine σ) (s : σ)
    (session : Option NativeSession) (tokens : List Int) (start_pos : Int)
    (compute_last_logit : Bool) : Option (σ × List (List BatchEntry) × Bool) :=
  match session with
  | none => some (s, [], false)
  | some sess =>
    if tokens = [] then some (s, [], true)
    else decode_loop E sess.n_batch tokens start_pos compute_last_logit tokens.length 0 s

/-- The batch entry for the token at offset `k` of the sequence, in the words
of the specification (section 4.4): tagged with the absolute position
`start_pos + k`, sequence id 0, and asking for logits only when
`compute_last_logit` is set and the token is the last of the whole sequence. -/
def tagged_entry (tokens : List Int) (start_pos : Int) (compute_last_logit : Bool) (k : Nat) :
    BatchEntry :=
  { token := tokens.getD k 0,
    pos := start_pos + (k : Int),
    seq_id := [0],
    logits := compute_last_logit && decide (k + 1 = tokens.length) }

/-- The whole sequence as tagged entries, in order. -/
def tagged_entries (tokens : List Int) (start_pos : Int) (compute_last_logit : Bool) :
    List BatchEntry :=
  (List.range tokens.length).map (tagged_entry tokens start_pos compute_last_logit)

/-- Submitting the batches in order from engine state `s`: the engine state
afterwards and the status `llama_decode` gives for each batch. -/
def replay {σ : Type} (E : Engine σ) : σ → List (List BatchEntry) → σ × List Int
  | s, [] => (s, [])
  | s, b :: bs =>
    let r := E.llama_decode s b
    let rest := replay E r.1 bs
    (rest.1, r.2 :: rest.2)

/-- What the generation loop does, in order: a token drawn by
`common_sampler_sample` and accepted (lines 392-393), a text fragment added to
`pending_utf8` (line 400), a chunk moved from `pending_utf8` to `output`
(lines 402-403), a single-token batch submitted to `llama_decode` at a
position (lines 411-413). -/
inductive Event where
  | sampled (token : Int)
  | fragment (piece : List Nat)
  | appended (chunk : List Nat)
  | decoded (token : Int) (pos : Int)
deriving DecidableEq

/-- The text moved to `output` by a list of events. -/
def appended_text : List Event → List Nat
  | [] => []
  | Event.appended chunk :: rest => chunk ++ appended_text rest
  | _ :: rest => appended_text rest

/-- The text added to `pending_utf8` by a list of events. -/
def emitted_text : List Event → List Nat
  | [] => []
  | Event.fragment piece :: rest => piece ++ emitted_text rest
  | _ :: rest => emitted_text rest

/-- The positions of the single-token decodes of a list of events, in order. -/
def decoded_positions : List Event → List Int
  | [] => []
  | Event.decoded _ pos :: rest => pos :: decoded_positions rest
  | _ :: rest => decoded_positions rest

/-- The number of tokens sampled in a list of events. -/
def sampled_count : List Event → Nat
  | [] => 0
  | Event.sampled _ :: rest => sampled_count rest + 1
  | _ :: rest => sampled_count rest

/-- Locals of the generation loop (lines 382-386) with the engine state. -/
structure GenState (σ : Type) where
  eng : σ
  output : List Nat
  pending_utf8 : List Nat
  generated_tokens : Int
  current_position : Int

/-- The `for` loop of `nativeGenerate` (lines 389-419). The first argument is
the number of iterations left, `n_predict - i`. Result: the locals when the
loop is left, the events of the loop in order, and `false` when the loop was
left by the failing `llama_decode` of line 413 (the call then throws). -/
def generate_loop {σ : Type} (E : Engine σ) (session : NativeSession) :
    Nat → GenState σ → GenState σ × List Event × Bool
  | 0, st => (st, [], true)
  | n + 1, st =>
    if st.current_position ≥ session.n_ctx - 2 then (st, [], true)
    else
      let r := E.common_sampler_sample st.eng
      let token := r.2
      let eng := E.common_sampler_accept r.1 token
      let st1 : GenState σ :=
        { st with eng := eng, generated_tokens := st.generated_tokens + 1 }
      if E.llama_vocab_is_eog eng token then (st1, [Event.sampled token], true)
      else
        let piece := E.common_token_to_piece eng token
        let pending := st1.pending_utf8 ++ piece
        let flush := is_valid_utf8 (c_str pending)
        let st2 : GenState σ :=
          if flush then { st1 with output := st1.output ++ pending, pending_utf8 := [] }
          else { st1 with pending_utf8 := pending }
        let ev : List Event :=
          if flush then [Event.sampled token, Event.fragment piece, Event.appended pending]
          else [Event.sampled token, Event.fragment piece]
        if flush && has_complete_json_object st2.output then (st2, ev, true)
        else
          let d := E.llama_decode st2.eng
            [{ token := token, pos := st2.current_position, seq_id := [0], logits := true }]
          let ev := ev ++ [Event.decoded token st2.current_position]
          if d.2 ≠ 0 then ({ st2 with eng := d.1 }, ev, false)
          else
            let st3 : GenState σ :=
              { st2 with eng := d.1, current_position := st2.current_position + 1 }
            let rest := generate_loop E session n st3
            (rest.1, ev ++ rest.2.1, rest.2.2)

/-- The exceptions `nativeGenerate` throws, by message (lines 326-415). -/
inductive GenError where
  | invalid_handle
  | null_prompt
  | session_not_initialized
  | sampler_init_failed
  | tokenization_failed
  | prompt_too_long
  | prompt_decode_failed
  | token_decode_failed
deriving DecidableEq

/-- Outcome of a `nativeGenerate` call: engine state and session afterwards,
the batches `decode_tokens_in_batches` submitted for the prompt, the events of
the generation loop, the content of `pending_utf8` when the call ends, and
the thrown exception or the bytes handed to `NewStringUTF`. -/
structure GenResult (σ : Type) where
  eng : σ
  session : NativeSession
  prompt_batches : List (List BatchEntry)
  trace : List Event
  pending_utf8 : List Nat
  result : Except GenError (List Nat)

/-- The value of `n_predict` after lines 367-371. -/
def n_predict_of (session : NativeSession) (requested_predict : Int) (prompt_len : Nat) : Int :=
  if requested_predict ≤ 0 then max 1 (session.n_ctx - (prompt_len : Int) - 2)
  else requested_predict

/-- The function `nativeGenerate(handle, prompt, maxTokens, temperature, topP)`
(lines 316-427). `handle = none` is the handle `0`, otherwise the session it
points to; `prompt = none` is a null `jstring`, otherwise the bytes
`GetStringUTFChars` yields. The outer `none` is returned only when the prompt
decoding loop does not finish (see `decode_tokens_in_batches`). -/
def Java_com_secondsense_llm_LlamaNativeBridge_nativeGenerate {σ : Type} (E : Engine σ)
    (s : σ) (handle : Option NativeSession) (prompt : Option (List Nat)) (maxTokens : Int) :
    Option (GenResult σ) :=
  match handle with
  | none =>
    some { eng := s, session := NativeSession.empty, prompt_batches := [], trace := [],
           pending_utf8 := [], result := .error .invalid_handle }
  | some session =>
    match prompt with
    | none =>
      some { eng := s, session := session, prompt_batches := [], trace := [],
             pending_utf8 := [], result := .error .null_prompt }
    | some prompt_chars =>
      if session.model = false ∨ session.context = false then
        some { eng := s, session := session, prompt_batches := [], trace := [],
               pending_utf8 := [], result := .error .session_not_initialized }
      else
        let prompt_text := c_str prompt_chars
        let requested_predict := maxTokens
        let s := E.llama_memory_clear s
        let rs := recreate_sampler E s session
        let s := rs.1
        let session := rs.2.1
        if rs.2.2 = false then
          some { eng := s, session := session, prompt_batches := [], trace := [],
                 pending_utf8 := [], result := .error .sampler_init_failed }
        else
          let prompt_tokens := E.common_tokenize s prompt_text
          if prompt_tokens = [] then
            some { eng := s, session := session, prompt_batches := [], trace := [],
                   pending_utf8 := [], result := .error .tokenization_failed }
          else
            let n_predict := n_predict_of session requested_predict prompt_tokens.length
            if (prompt_tokens.length : Int) ≥ session.n_ctx - 4 then
              some { eng := s, session := session, prompt_batches := [], trace := [],
                     pending_utf8 := [], result := .error .prompt_too_long }
            else
              match decode_tokens_in_batches E s (some session) prompt_tokens 0 true with
              | none => none
              | some (s, batches, ok) =>
                if ok = false then
                  some { eng := s, session := session, prompt_batches := batches, trace := [],
                         pending_utf8 := [], result := .error .prompt_decode_failed }
                else
                  let st0 : GenState σ :=
                    { eng := s, output := [], pending_utf8 := [], generated_tokens := 0,
                      current_position := (prompt_tokens.length : Int) }
                  let r := generate_loop E session n_predict.toNat st0
                  if r.2.2 = false then
                    some { eng := r.1.eng, session := session, prompt_batches := batches,
                           trace := r.2.1, pending_utf8 := r.1.pending_utf8,
                           result := .error .token_decode_failed }
                  else
                    some { eng := r.1.eng, session := session, prompt_batches := batches,
                           trace := r.2.1, pending_utf8 := r.1.pending_utf8,
                           result := .ok (c_str r.1.output) }

/-- A scripted engine for examples: its state is the list of tokens still to
be sampled (token `0` when the list is exhausted, which is the
end-of-generation token); every call succeeds, the prompt is tokenized one
token per byte, and `piece` gives the text of each token. -/
def scripted (piece : Int → List Nat) : Engine (List Int) :=
  { llama_memory_clear := fun s => s
    common_sampler_free := fun s => s
    common_sampler_init := fun s => (s, true)
    common_tokenize := fun _ text => text.map fun (b : Nat) => (b : Int)
    llama_decode := fun s _ => (s, 0)
    common_sampler_sample := fun s => (s.tail, s.headD 0)
    common_sampler_accept := fun s _ => s
    llama_vocab_is_eog := fun _ t => decide (t = 0)
    common_token_to_piece := fun _ t => piece t }

/-- A loaded session as `nativeLoadModel` creates it for a requested context
size of at most 512. -/
def session512 : NativeSession :=
  { model := true, context := true, batch_token := true, batch_embd := false,
    sampler := true, n_ctx := 512, n_batch := 512 }

/-- Example vocabulary: token 1 is an opening brace, token 2 a closing brace
followed by a line feed, token 3 the lead byte `0xC3` alone, token 4 the
continuation byte `0xA9`, token 6 a closing brace alone, token 7 a NUL byte,
any other token the letter `a`. -/
def piece1 : Int → List Nat
  | 1 => [123]
  | 2 => [125, 10]
  | 3 => [0xC3]
  | 4 => [0xA9]
  | 6 => [125]
  | 7 => [0]
  | _ => [97]

/-- Example engine whose `llama_decode` answers status 7 for the batch that
starts with token 30 and status 0 for every other batch. -/
def failing_second_chunk : Engine (List Int) :=
  { scripted piece1 with
    llama_decode := fun s b => (s, if (b.map (fun e => e.token)).head? = some 30 then 7 else 0) }

/-- Example engine whose `common_sampler_init` fails. -/
def failing_sampler : Engine (List Int) :=
  { scripted piece1 with common_sampler_init := fun s => (s, false) }

/-- Example prompt of 600 bytes, the letter `h` repeated; the scripted engine
tokenizes it to 600 tokens. -/
def prompt600 : List Nat :=
  List.replicate 600 104

/-! ## Lemmas on the JSON scanner -/

theorem json_step_none {st : JsonScan} {i : Int} {ch : Nat} (h : json_step st i ch = none) :
    ch = 125 ∧ st.in_string = false ∧ st.depth = 1 ∧ 0 ≤ st.start := by
  unfold json_step at h
  split_ifs at h with h1 h2 h3 h4 h5 h6 h7 h8
  refine ⟨h7.1, by simpa using h1, by omega, by omega⟩

theorem json_run_append (a b : List Nat) (i : Int) (st : JsonScan) :
    json_run (a ++ b) i st =
      match json_run a i st with
      | none => none
      | some st' => json_run b (i + a.length) st' := by
  induction a generalizing i st with
  | nil => simp [json_run]
  | cons ch a ih =>
    simp only [List.cons_append, json_run, List.length_cons]
    cases hs : json_step st i ch with
    | none => simp
    | some st' =>
      have hlen : i + ((a.length + 1 : Nat) : Int) = i + 1 + (a.length : Int) := by
        push_cast; ring
      rw [hlen]
      exact ih (i + 1) st'

theorem json_run_none_split (s : List Nat) (i : Int) (st : JsonScan)
    (h : json_run s i st = none) :
    ∃ q rest st', s = q ++ 125 :: rest ∧ json_run q i st = some st' ∧
      json_step st' (i + q.length) 125 = none := by
  induction s generalizing i st with
  | nil => simp [json_run] at h
  | cons ch s ih =>
    simp only [json_run] at h
    cases hs : json_step st i ch with
    | none =>
      have hc := (json_step_none hs).1
      subst hc
      exact ⟨[], s, st, by simp, by simp [json_run], by simpa using hs⟩
    | some st1 =>
      rw [hs] at h
      obtain ⟨q, rest, st', hq, hrun, hstep⟩ := ih (i + 1) st1 h
      refine ⟨ch :: q, rest, st', by simp [hq], by simp [json_run, hs, hrun], ?_⟩
      have : i + ((ch :: q).length : Int) = i + 1 + (q.length : Int) := by
        simp only [List.length_cons]; push_cast; ring
      rw [this]; exact hstep

theorem json_run_prefix_some {q r : List Nat} {i : Int} {st st' : JsonScan}
    (h : json_run q i st = some st') (hr : r <+: q) : ∃ st'', json_run r i st = some st'' := by
  obtain ⟨t, rfl⟩ := hr
  rw [json_run_append] at h
  cases hrun : json_run r i st with
  | none => simp [hrun] at h
  | some st'' => exact ⟨st'', rfl⟩

theorem has_complete_json_object_append {s : List Nat} (t : List Nat)
    (h : has_complete_json_object s = true) : has_complete_json_object (s ++ t) = true := by
  unfold has_complete_json_object at *
  rw [json_run_append]
  cases hrun : json_run s 0 JsonScan.init with
  | none => simp
  | some st => simp [hrun] at h

theorem inside_quoted_string_true_cons (ch : Nat) (t : List Nat) :
    inside_quoted_string true (ch :: t)
      = if ch = 92 then inside_quoted_string true (t.drop 1)
        else if ch = 34 then inside_quoted_string false t
        else inside_quoted_string true t := by
  cases t with
  | nil =>
    simp only [inside_quoted_string, List.drop_nil]
    split_ifs <;> simp_all
  | cons c t => simp [inside_quoted_string]

/-- The scanner's `in_string` flag agrees with `inside_quoted_string`: from a
state outside a string, from a state inside a string with no escape pending,
and from a state inside a string right after a backslash. Outside a string no
escape is pending. -/
theorem json_run_in_string (q : List Nat) (i : Int) (st st' : JsonScan)
    (hinv : st.in_string = false → st.escaping = false)
    (hrun : json_run q i st = some st') :
    st'.in_string =
      (if st.in_string = true then
        (if st.escaping = true then inside_quoted_string true (92 :: q)
         else inside_quoted_string true q)
       else inside_quoted_string false q) := by
  induction q generalizing i st with
  | nil =>
    simp only [json_run, Option.some.injEq] at hrun
    subst hrun
    cases h1 : st.in_string <;> cases h2 : st.escaping <;> simp [inside_quoted_string]
  | cons ch t ih =>
    simp only [json_run] at hrun
    cases hs : json_step st i ch with
    | none => simp [hs] at hrun
    | some st1 =>
      rw [hs] at hrun
      have hinv1 : st1.in_string = false → st1.escaping = false := by
        unfold json_step at hs
        split_ifs at hs <;> simp only [Option.some.injEq] at hs <;> subst hs <;> simp_all
      have ih' := ih (i + 1) st1 hinv1 hrun
      rw [ih']
      unfold json_step at hs
      split_ifs at hs with h1 h2 h3 h4 h5 h6 h7 h8 <;>
        simp only [Option.some.injEq] at hs <;> subst hs <;>
        simp_all [inside_quoted_string, inside_quoted_string_true_cons]

/-- Claim C10. `has_complete_json_object` depends only on the prefix up to the
first completed top-level object. If it accepts `s` then it accepts every
extension `s ++ t`, and there is a prefix `q ++ [125]` of `s` (125 is the
closing brace) that it accepts while it rejects every proper prefix of it, so
this is the shortest accepted prefix. That closing brace lies outside any
quoted string: the text `q` before it does not end inside a quoted string in
the sense of `inside_quoted_string`, where a quote after an unescaped
backslash inside a string does not end the string; the scanner is then at
depth 1. On every text the scanner does not accept, its `in_string` flag is
exactly `inside_quoted_string` of that text, and inside a string a backslash
followed by a quote (34) leaves the scanner inside the string. -/
theorem has_complete_json_object_first_object (s : List Nat)
    (h : has_complete_json_object s = true) :
    (∀ t, has_complete_json_object (s ++ t) = true) ∧
    (∃ q st, (q ++ [125]) <+: s ∧
      has_complete_json_object (q ++ [125]) = true ∧
      (∀ r, r <+: q ++ [125] → r ≠ q ++ [125] → has_complete_json_object r = false) ∧
      inside_quoted_string false q = false ∧
      json_run q 0 JsonScan.init = some st ∧ st.in_string = false ∧ st.depth = 1) ∧
    (∀ (t : List Nat) (st : JsonScan), json_run t 0 JsonScan.init = some st →
      st.in_string = inside_quoted_string false t) ∧
    (∀ t : List Nat, inside_quoted_string true (92 :: 34 :: t) = inside_quoted_string true t) ∧
    (∀ (st : JsonScan) (i : Int), st.in_string = true → st.escaping = false →
      ∃ st1 st2, json_step st i 92 = some st1 ∧ json_step st1 (i + 1) 34 = some st2 ∧
        st2.in_string = true) := by
  have hagree : ∀ (t : List Nat) (st : JsonScan), json_run t 0 JsonScan.init = some st →
      st.in_string = inside_quoted_string false t := by
    intro t st hrun
    have := json_run_in_string t 0 JsonScan.init st (by simp [JsonScan.init]) hrun
    simpa [JsonScan.init] using this
  refine ⟨fun t => has_complete_json_object_append t h, ?_, hagree, ?_, ?_⟩
  · have hnone : json_run s 0 JsonScan.init = none := by
      unfold has_complete_json_object at h
      cases hrun : json_run s 0 JsonScan.init with
      | none => rfl
      | some st => simp [hrun] at h
    obtain ⟨q, rest, st, hs, hrun, hstep⟩ := json_run_none_split s 0 JsonScan.init hnone
    have hst := json_step_none hstep
    refine ⟨q, st, ⟨rest, by simp [hs]⟩, ?_, ?_, ?_, hrun, hst.2.1, hst.2.2.1⟩
    · unfold has_complete_json_object
      rw [json_run_append, hrun]
      simp only [zero_add] at hstep
      simp [json_run, hstep]
    · intro r hr hne
      have hrq : r <+: q := by
        rcases List.prefix_concat_iff.mp (by simpa using hr) with h1 | h1
        · exact absurd (by simpa using h1) hne
        · exact h1
      obtain ⟨st'', hst''⟩ := json_run_prefix_some hrun hrq
      simp [has_complete_json_object, hst'']
    · rw [← hagree q st hrun]
      exact hst.2.1
  · intro t
    simp [inside_quoted_string]
  · intro st i h1 h2
    refine ⟨{ st with escaping := true }, { st with escaping := false }, ?_, ?_, h1⟩
    · simp [json_step, h1, h2]
    · simp [json_step, h1]

/-- Witness for C10: the text `{"}"}x` is accepted, with shortest accepted
prefix `{"}"}`; its first closing brace is inside a quoted string, so `{"}"`
is rejected. -/
theorem has_complete_json_object_first_object_witness :
    has_complete_json_object [123, 34, 125, 34, 125, 120] = true ∧
    has_complete_json_object [123, 34, 125, 34] = false ∧
    inside_quoted_string false [123, 34] = true ∧
    (∀ t, has_complete_json_object ([123, 34, 125, 34, 125, 120] ++ t) = true) ∧
    ∃ q, (q ++ [125]) <+: [123, 34, 125, 34, 125, 120] ∧
      has_complete_json_object (q ++ [125]) = true ∧
      inside_quoted_string false q = false := by
  obtain ⟨h1, ⟨q, st, h2, h3, _, h5, _⟩, _⟩ :=
    has_complete_json_object_first_object [123, 34, 125, 34, 125, 120] (by decide)
  exact ⟨by decide, by decide, by decide, h1, q, h2, h3, h5⟩

/-! ## Lemmas on `is_valid_utf8` -/

theorem c_str_ne_zero (s : List Nat) : ∀ b ∈ c_str s, b ≠ 0 := by
  intro b hb
  have := List.mem_takeWhile_imp hb
  simpa using this

theorem c_str_of_ne_zero (s : List Nat) (h : ∀ b ∈ s, b ≠ 0) : c_str s = s := by
  unfold c_str
  rw [List.takeWhile_eq_self_iff]
  intro b hb
  simpa using h b hb

theorem utf8_scan_c_str (k : Nat) (s : List Nat) : utf8_scan k (c_str s) = utf8_scan k s := by
  induction s generalizing k with
  | nil => simp [c_str]
  | cons b s ih =>
    by_cases hb : b = 0
    · subst hb
      cases k with
      | zero => simp [c_str, utf8_scan]
      | succ k => simp [c_str, utf8_scan]
    · have hc : c_str (b :: s) = b :: c_str s := by
        simp [c_str, List.takeWhile_cons, hb]
      rw [hc]
      cases k with
      | zero => simp only [utf8_scan, ih]
      | succ k => simp only [utf8_scan, ih]

theorem utf8_scan_append (k : Nat) (a b : List Nat) (ha : utf8_scan k a = true)
    (hb : utf8_scan 0 b = true) : utf8_scan k (a ++ b) = true := by
  induction a generalizing k with
  | nil =>
    cases k with
    | zero => simpa using hb
    | succ k => simp [utf8_scan] at ha
  | cons x a ih =>
    cases k with
    | zero =>
      simp only [utf8_scan, List.cons_append] at ha ⊢
      split_ifs at ha ⊢ with h1 h2 h3 h4 h5
      · rfl
      · exact ih _ ha
      · exact ih _ ha
      · exact ih _ ha
      · exact ih _ ha
    | succ k =>
      simp only [utf8_scan, List.cons_append] at ha ⊢
      split_ifs at ha ⊢ with h1
      exact ih _ ha

theorem utf8_scan_units (k : Nat) (s : List Nat) (hz : ∀ b ∈ s, b ≠ 0)
    (h : utf8_scan k s = true) :
    ∃ cs rest, s = cs ++ rest ∧ cs.length = k ∧ (∀ c ∈ cs, c &&& 0xC0 = 0x80) ∧
      CompleteUnits rest := by
  induction s generalizing k with
  | nil =>
    cases k with
    | zero => exact ⟨[], [], rfl, rfl, by simp, CompleteUnits.nil⟩
    | succ k => simp [utf8_scan] at h
  | cons x s ih =>
    have hz' : ∀ b ∈ s, b ≠ 0 := fun b hb => hz b (List.mem_cons_of_mem _ hb)
    have hx : x ≠ 0 := hz x (List.mem_cons_self _ _)
    cases k with
    | zero =>
      simp only [utf8_scan] at h
      have key : ∀ n, announced x = some n → utf8_scan n s = true →
          ∃ cs rest, x :: s = cs ++ rest ∧ cs.length = 0 ∧ (∀ c ∈ cs, c &&& 0xC0 = 0x80) ∧
            CompleteUnits rest := by
        intro n hn hs
        obtain ⟨cs, rest, hsplit, hlen, hcont, hrest⟩ := ih n hz' hs
        exact ⟨[], x :: s, rfl, rfl, by simp, by
          rw [hsplit]; exact CompleteUnits.unit x n cs rest hn hlen hcont hrest⟩
      split_ifs at h with h1 h2 h3 h4 h5
      · exact absurd h1 hx
      · exact key 0 (by simp [announced, h2]) h
      · exact key 1 (by simp [announced, h2, h3]) h
      · exact key 2 (by simp [announced, h2, h3, h4]) h
      · exact key 3 (by simp [announced, h2, h3, h4, h5]) h
    | succ k =>
      simp only [utf8_scan] at h
      split_ifs at h with h1
      obtain ⟨cs, rest, hsplit, hlen, hcont, hrest⟩ := ih k hz' h
      refine ⟨x :: cs, rest, by simp [hsplit], by simp [hlen], ?_, hrest⟩
      intro c hc
      rcases List.mem_cons.mp hc with rfl | hc
      · simpa using h1
      · exact hcont c hc

theorem is_valid_utf8_complete_units (s : List Nat) (hz : ∀ b ∈ s, b ≠ 0)
    (h : is_valid_utf8 s = true) : CompleteUnits s := by
  obtain ⟨cs, rest, hsplit, hlen, _, hrest⟩ := utf8_scan_units 0 s hz h
  have : cs = [] := List.length_eq_zero.mp hlen
  subst this
  simpa [hsplit] using hrest

/-! ## Lemmas on the generation loop -/

theorem appended_text_append (a b : List Event) :
    appended_text (a ++ b) = appended_text a ++ appended_text b := by
  induction a with
  | nil => simp [appended_text]
  | cons e a ih => cases e <;> simp [appended_text, ih]

theorem emitted_text_append (a b : List Event) :
    emitted_text (a ++ b) = emitted_text a ++ emitted_text b := by
  induction a with
  | nil => simp [emitted_text]
  | cons e a ih => cases e <;> simp [emitted_text, ih]

/-- Induction along the iterations of the generation loop. The cases are the
ways one iteration can go: no iteration left, context exhausted, an
end-of-generation token, a flush that completes a JSON object, a failing
decode, a successful decode followed by the remaining iterations. In the last
two cases `out2`, `pend2` and `ev` are the buffers and events after the UTF-8
handling of lines 400-409, with or without a flush. -/
theorem generate_loop_induction {σ : Type} (E : Engine σ) (session : NativeSession)
    (motive : Nat → GenState σ → GenState σ × List Event × Bool → Prop)
    (zero : ∀ st, motive 0 st (st, [], true))
    (full : ∀ n st, st.current_position ≥ session.n_ctx - 2 → motive (n + 1) st (st, [], true))
    (eog : ∀ n st tok eng1, ¬ st.current_position ≥ session.n_ctx - 2 →
      motive (n + 1) st
        ({ st with eng := eng1, generated_tokens := st.generated_tokens + 1 },
          [Event.sampled tok], true))
    (stop : ∀ n st tok eng1 piece, ¬ st.current_position ≥ session.n_ctx - 2 →
      is_valid_utf8 (c_str (st.pending_utf8 ++ piece)) = true →
      has_complete_json_object (st.output ++ (st.pending_utf8 ++ piece)) = true →
      motive (n + 1) st
        ({ eng := eng1, output := st.output ++ (st.pending_utf8 ++ piece), pending_utf8 := [],
           generated_tokens := st.generated_tokens + 1,
           current_position := st.current_position },
          [Event.sampled tok, Event.fragment piece,
            Event.appended (st.pending_utf8 ++ piece)], true))
    (fail : ∀ n st tok eng2 piece out2 pend2 ev,
      ¬ st.current_position ≥ session.n_ctx - 2 →
      ((is_valid_utf8 (c_str (st.pending_utf8 ++ piece)) = true ∧
          has_complete_json_object (st.output ++ (st.pending_utf8 ++ piece)) = false ∧
          out2 = st.output ++ (st.pending_utf8 ++ piece) ∧ pend2 = [] ∧
          ev = [Event.sampled tok, Event.fragment piece,
            Event.appended (st.pending_utf8 ++ piece)]) ∨
        (is_valid_utf8 (c_str (st.pending_utf8 ++ piece)) = false ∧ out2 = st.output ∧
          pend2 = st.pending_utf8 ++ piece ∧
          ev = [Event.sampled tok, Event.fragment piece])) →
      motive (n + 1) st
        ({ eng := eng2, output := out2, pending_utf8 := pend2,
           generated_tokens := st.generated_tokens + 1,
           current_position := st.current_position },
          ev ++ [Event.decoded tok st.current_position], false))
    (step : ∀ n st tok eng2 piece out2 pend2 ev rest,
      ¬ st.current_position ≥ session.n_ctx - 2 →
      ((is_valid_utf8 (c_str (st.pending_utf8 ++ piece)) = true ∧
          has_complete_json_object (st.output ++ (st.pending_utf8 ++ piece)) = false ∧
          out2 = st.output ++ (st.pending_utf8 ++ piece) ∧ pend2 = [] ∧
          ev = [Event.sampled tok, Event.fragment piece,
            Event.appended (st.pending_utf8 ++ piece)]) ∨
        (is_valid_utf8 (c_str (st.pending_utf8 ++ piece)) = false ∧ out2 = st.output ∧
          pend2 = st.pending_utf8 ++ piece ∧
          ev = [Event.sampled tok, Event.fragment piece])) →
      motive n
        { eng := eng2, output := out2, pending_utf8 := pend2,
          generated_tokens := st.generated_tokens + 1,
          current_position := st.current_position + 1 } rest →
      motive (n + 1) st
        (rest.1, (ev ++ [Event.decoded tok st.current_position]) ++ rest.2.1, rest.2.2))
    (n : Nat) (st : GenState σ) : motive n st (generate_loop E session n st) := by
  induction n generalizing st with
  | zero => simpa [generate_loop] using zero st
  | succ n ih =>
    rw [generate_loop]
    dsimp only
    split_ifs with h1 h2 h3 h4 h5 h6 h7
    · exact full n st h1
    · exact eog n st _ _ h1
    · have h4' : has_complete_json_object (st.output ++ (st.pending_utf8 ++
          E.common_token_to_piece
            (E.common_sampler_accept (E.common_sampler_sample st.eng).1
              (E.common_sampler_sample st.eng).2) (E.common_sampler_sample st.eng).2)) = true := by
        simpa [h3] using h4
      exact stop n st _ _ _ h1 h3 h4'
    · have h4' : has_complete_json_object (st.output ++ (st.pending_utf8 ++
          E.common_token_to_piece
            (E.common_sampler_accept (E.common_sampler_sample st.eng).1
              (E.common_sampler_sample st.eng).2) (E.common_sampler_sample st.eng).2)) = false := by
        simpa [h3] using h4
      exact fail n st _ _ _ _ _ _ h1 (Or.inl ⟨h3, h4', rfl, rfl, rfl⟩)
    · have h4' : has_complete_json_object (st.output ++ (st.pending_utf8 ++
          E.common_token_to_piece
            (E.common_sampler_accept (E.common_sampler_sample st.eng).1
              (E.common_sampler_sample st.eng).2) (E.common_sampler_sample st.eng).2)) = false := by
        simpa [h3] using h4
      exact step n st _ _ _ _ _ _ _ h1 (Or.inl ⟨h3, h4', rfl, rfl, rfl⟩) (ih _)
    · simp [h3] at h6
    · exact fail n st _ _ _ _ _ _ h1 (Or.inr ⟨by simpa using h3, rfl, rfl, rfl⟩)
    · exact step n st _ _ _ _ _ _ _ h1 (Or.inr ⟨by simpa using h3, rfl, rfl, rfl⟩) (ih _)

theorem generate_loop_text {σ : Type} (E : Engine σ) (session : NativeSession) (n : Nat)
    (st : GenState σ) :
    (generate_loop E session n st).1.output
        = st.output ++ appended_text (generate_loop E session n st).2.1 ∧
    st.pending_utf8 ++ emitted_text (generate_loop E session n st).2.1
        = appended_text (generate_loop E session n st).2.1
            ++ (generate_loop E session n st).1.pending_utf8 ∧
    (is_valid_utf8 st.output = true →
      is_valid_utf8 (generate_loop E session n st).1.output = true) ∧
    (∀ chunk, Event.appended chunk ∈ (generate_loop E session n st).2.1 →
      is_valid_utf8 (c_str chunk) = true) := by
  refine generate_loop_induction E session
    (fun _ st res =>
      res.1.output = st.output ++ appended_text res.2.1 ∧
      st.pending_utf8 ++ emitted_text res.2.1 = appended_text res.2.1 ++ res.1.pending_utf8 ∧
      (is_valid_utf8 st.output = true → is_valid_utf8 res.1.output = true) ∧
      (∀ chunk, Event.appended chunk ∈ res.2.1 → is_valid_utf8 (c_str chunk) = true))
    ?_ ?_ ?_ ?_ ?_ ?_ n st
  · intro st; simp [appended_text, emitted_text]
  · intro n st _; simp [appended_text, emitted_text]
  · intro n st tok eng1 _; simp [appended_text, emitted_text]
  · intro n st tok eng1 piece _ hv _
    have hv' : utf8_scan 0 (st.pending_utf8 ++ piece) = true := by
      rw [is_valid_utf8, utf8_scan_c_str] at hv; exact hv
    refine ⟨by simp [appended_text], by simp [appended_text, emitted_text], ?_, ?_⟩
    · intro h0; exact utf8_scan_append 0 _ _ h0 hv'
    · intro chunk hc
      simp at hc
      rw [hc]; exact hv
  · intro n st tok eng2 piece out2 pend2 ev _ hcase
    rcases hcase with ⟨hv, _, rfl, rfl, rfl⟩ | ⟨_, rfl, rfl, rfl⟩
    · have hv' : utf8_scan 0 (st.pending_utf8 ++ piece) = true := by
        rw [is_valid_utf8, utf8_scan_c_str] at hv; exact hv
      refine ⟨by simp [appended_text], by simp [appended_text, emitted_text], ?_, ?_⟩
      · intro h0; exact utf8_scan_append 0 _ _ h0 hv'
      · intro chunk hc
        simp at hc
        rw [hc]; exact hv
    · simp [appended_text, emitted_text]
  · intro n st tok eng2 piece out2 pend2 ev rest _ hcase ih
    obtain ⟨i1, i2, i3, i4⟩ := ih
    simp only at i1 i2 i3 i4
    rcases hcase with ⟨hv, _, rfl, rfl, rfl⟩ | ⟨_, rfl, rfl, rfl⟩
    · have hv' : utf8_scan 0 (st.pending_utf8 ++ piece) = true := by
        rw [is_valid_utf8, utf8_scan_c_str] at hv; exact hv
      refine ⟨?_, ?_, ?_, ?_⟩
      · simp [appended_text, appended_text_append, i1]
      · simp only [List.nil_append] at i2
        simp [appended_text, emitted_text, appended_text_append, emitted_text_append, i2]
      · intro h0; exact i3 (utf8_scan_append 0 _ _ h0 hv')
      · intro chunk hc
        simp at hc
        rcases hc with hc | hc
        · rw [hc]; exact hv
        · exact i4 chunk hc
    · refine ⟨?_, ?_, i3, ?_⟩
      · simp [appended_text, appended_text_append, i1]
      · simp [appended_text, emitted_text, appended_text_append, emitted_text_append, ← i2]
      · intro chunk hc
        simp at hc
        exact i4 chunk hc

/-- Extending a list of events by one event at the front keeps the property
"once the output holds a complete object, no event follows", provided the
output held none before. -/
theorem no_event_after_object_cons (out0 : List Nat) (e : Event) (ev : List Event)
    (h0 : has_complete_json_object out0 = false)
    (h : ∀ pre post, ev = pre ++ post →
      has_complete_json_object ((out0 ++ appended_text [e]) ++ appended_text pre) = true →
      post = []) :
    ∀ pre post, e :: ev = pre ++ post →
      has_complete_json_object (out0 ++ appended_text pre) = true → post = [] := by
  intro pre post hsplit hobj
  cases pre with
  | nil => simp [appended_text, h0] at hobj
  | cons e' pre' =>
    simp only [List.cons_append, List.cons.injEq] at hsplit
    obtain ⟨rfl, hev⟩ := hsplit
    apply h pre' post hev
    have : appended_text (e :: pre') = appended_text [e] ++ appended_text pre' :=
      appended_text_append [e] pre'
    rw [this, ← List.append_assoc] at hobj
    exact hobj

theorem no_event_after_object_nil (out0 : List Nat) :
    ∀ pre post, ([] : List Event) = pre ++ post →
      has_complete_json_object (out0 ++ appended_text pre) = true → post = [] := by
  intro pre post hsplit _
  have := List.append_eq_nil.mp hsplit.symm
  exact this.2

theorem generate_loop_stops {σ : Type} (E : Engine σ) (session : NativeSession) (n : Nat)
    (st : GenState σ) (h0 : has_complete_json_object st.output = false) :
    (∀ pre post, (generate_loop E session n st).2.1 = pre ++ post →
      has_complete_json_object (st.output ++ appended_text pre) = true → post = []) ∧
    (has_complete_json_object (generate_loop E session n st).1.output = true →
      (generate_loop E session n st).2.2 = true ∧
      ∃ pre chunk, (generate_loop E session n st).2.1 = pre ++ [Event.appended chunk] ∧
        has_complete_json_object (st.output ++ appended_text pre) = false) := by
  revert h0
  refine generate_loop_induction E session
    (fun _ st res => has_complete_json_object st.output = false →
      (∀ pre post, res.2.1 = pre ++ post →
        has_complete_json_object (st.output ++ appended_text pre) = true → post = []) ∧
      (has_complete_json_object res.1.output = true →
        res.2.2 = true ∧
        ∃ pre chunk, res.2.1 = pre ++ [Event.appended chunk] ∧
          has_complete_json_object (st.output ++ appended_text pre) = false))
    ?_ ?_ ?_ ?_ ?_ ?_ n st
  · intro st h0
    exact ⟨no_event_after_object_nil _, fun h => by simp [h0] at h⟩
  · intro n st _ h0
    exact ⟨no_event_after_object_nil _, fun h => by simp [h0] at h⟩
  · intro n st tok eng1 _ h0
    refine ⟨?_, fun h => by simp [h0] at h⟩
    apply no_event_after_object_cons _ _ _ h0
    exact no_event_after_object_nil _
  · intro n st tok eng1 piece _ _ hobj h0
    have h1 : has_complete_json_object (st.output ++ appended_text [Event.sampled tok]) = false := by
      simpa [appended_text] using h0
    have h2 : has_complete_json_object ((st.output ++ appended_text [Event.sampled tok])
        ++ appended_text [Event.fragment piece]) = false := by
      simpa [appended_text] using h0
    refine ⟨?_, fun _ => ⟨rfl, [Event.sampled tok, Event.fragment piece], _, rfl, ?_⟩⟩
    · apply no_event_after_object_cons _ _ _ h0
      apply no_event_after_object_cons _ _ _ h1
      apply no_event_after_object_cons _ _ _ h2
      exact no_event_after_object_nil _
    · simpa [appended_text] using h0
  · intro n st tok eng2 piece out2 pend2 ev _ hcase h0
    have h1 : has_complete_json_object (st.output ++ appended_text [Event.sampled tok]) = false := by
      simpa [appended_text] using h0
    have h2 : has_complete_json_object ((st.output ++ appended_text [Event.sampled tok])
        ++ appended_text [Event.fragment piece]) = false := by
      simpa [appended_text] using h0
    rcases hcase with ⟨_, hno, rfl, rfl, rfl⟩ | ⟨_, rfl, rfl, rfl⟩
    · have h3 : has_complete_json_object (((st.output ++ appended_text [Event.sampled tok])
          ++ appended_text [Event.fragment piece])
          ++ appended_text [Event.appended (st.pending_utf8 ++ piece)]) = false := by
        simpa [appended_text] using hno
      refine ⟨?_, fun h => by simp [hno] at h⟩
      apply no_event_after_object_cons _ _ _ h0
      apply no_event_after_object_cons _ _ _ h1
      apply no_event_after_object_cons _ _ _ h2
      apply no_event_after_object_cons _ _ _ h3
      exact no_event_after_object_nil _
    · refine ⟨?_, fun h => by simp [h0] at h⟩
      apply no_event_after_object_cons _ _ _ h0
      apply no_event_after_object_cons _ _ _ h1
      apply no_event_after_object_cons _ _ _ h2
      exact no_event_after_object_nil _
  · intro n st tok eng2 piece out2 pend2 ev rest _ hcase ih h0
    have h1 : has_complete_json_object (st.output ++ appended_text [Event.sampled tok]) = false := by
      simpa [appended_text] using h0
    have h2 : has_complete_json_object ((st.output ++ appended_text [Event.sampled tok])
        ++ appended_text [Event.fragment piece]) = false := by
      simpa [appended_text] using h0
    rcases hcase with ⟨_, hno, rfl, rfl, rfl⟩ | ⟨_, rfl, rfl, rfl⟩
    · obtain ⟨ih1, ih2⟩ := ih hno
      have h3 : has_complete_json_object (((st.output ++ appended_text [Event.sampled tok])
          ++ appended_text [Event.fragment piece])
          ++ appended_text [Event.appended (st.pending_utf8 ++ piece)]) = false := by
        simpa [appended_text] using hno
      refine ⟨?_, ?_⟩
      · simp only [List.cons_append, List.nil_append]
        apply no_event_after_object_cons _ _ _ h0
        apply no_event_after_object_cons _ _ _ h1
        apply no_event_after_object_cons _ _ _ h2
        apply no_event_after_object_cons _ _ _ h3
        intro pre post hsplit hobj
        apply ih1 pre post hsplit
        simpa [appended_text] using hobj
      · intro hfin
        obtain ⟨hok, pre, chunk, htr, hpre⟩ := ih2 hfin
        refine ⟨hok, [Event.sampled tok, Event.fragment piece,
          Event.appended (st.pending_utf8 ++ piece), Event.decoded tok st.current_position] ++ pre,
          chunk, ?_, ?_⟩
        · simp [htr]
        · simpa [appended_text, appended_text_append] using hpre
    · obtain ⟨ih1, ih2⟩ := ih h0
      refine ⟨?_, ?_⟩
      · simp only [List.cons_append, List.nil_append]
        apply no_event_after_object_cons _ _ _ h0
        apply no_event_after_object_cons _ _ _ h1
        apply no_event_after_object_cons _ _ _ h2
        intro pre post hsplit hobj
        apply ih1 pre post hsplit
        simpa [appended_text] using hobj
      · intro hfin
        obtain ⟨hok, pre, chunk, htr, hpre⟩ := ih2 hfin
        refine ⟨hok, [Event.sampled tok, Event.fragment piece,
          Event.decoded tok st.current_position] ++ pre, chunk, ?_, ?_⟩
        · simp [htr]
        · simpa [appended_text, appended_text_append] using hpre

theorem decoded_positions_append (a b : List Event) :
    decoded_positions (a ++ b) = decoded_positions a ++ decoded_positions b := by
  induction a with
  | nil => simp [decoded_positions]
  | cons e a ih => cases e <;> simp [decoded_positions, ih]

theorem sampled_count_append (a b : List Event) :
    sampled_count (a ++ b) = sampled_count a + sampled_count b := by
  induction a with
  | nil => simp [sampled_count]
  | cons e a ih =>
    cases e <;> simp [sampled_count, ih]
    omega

theorem generate_loop_positions {σ : Type} (E : Engine σ) (session : NativeSession) (n : Nat)
    (st : GenState σ) :
    (∀ k (hk : k < (decoded_positions (generate_loop E session n st).2.1).length),
      (decoded_positions (generate_loop E session n st).2.1)[k] = st.current_position + (k : Int)) ∧
    (∀ p ∈ decoded_positions (generate_loop E session n st).2.1, p < session.n_ctx - 2) ∧
    sampled_count (generate_loop E session n st).2.1 ≤ n ∧
    (decoded_positions (generate_loop E session n st).2.1).length
      ≤ sampled_count (generate_loop E session n st).2.1 := by
  refine generate_loop_induction E session
    (fun n st res =>
      (∀ k (hk : k < (decoded_positions res.2.1).length),
        (decoded_positions res.2.1)[k] = st.current_position + (k : Int)) ∧
      (∀ p ∈ decoded_positions res.2.1, p < session.n_ctx - 2) ∧
      sampled_count res.2.1 ≤ n ∧
      (decoded_positions res.2.1).length ≤ sampled_count res.2.1)
    ?_ ?_ ?_ ?_ ?_ ?_ n st
  · intro st; simp [decoded_positions, sampled_count]
  · intro n st _; simp [decoded_positions, sampled_count]
  · intro n st tok eng1 _; simp [decoded_positions, sampled_count]
  · intro n st tok eng1 piece _ _ _; simp [decoded_positions, sampled_count]
  · intro n st tok eng2 piece out2 pend2 ev hpos hcase
    rcases hcase with ⟨_, _, rfl, rfl, rfl⟩ | ⟨_, rfl, rfl, rfl⟩
    · simp [decoded_positions, sampled_count]
      omega
    · simp [decoded_positions, sampled_count]
      omega
  · intro n st tok eng2 piece out2 pend2 ev rest hpos hcase ih
    obtain ⟨i1, i2, i3, i4⟩ := ih
    simp only at i1 i2 i3 i4
    have hd : decoded_positions ((ev ++ [Event.decoded tok st.current_position]) ++ rest.2.1)
        = st.current_position :: decoded_positions rest.2.1 := by
      rcases hcase with ⟨_, _, rfl, rfl, rfl⟩ | ⟨_, rfl, rfl, rfl⟩ <;> simp [decoded_positions]
    have hs : sampled_count ((ev ++ [Event.decoded tok st.current_position]) ++ rest.2.1)
        = sampled_count rest.2.1 + 1 := by
      rcases hcase with ⟨_, _, rfl, rfl, rfl⟩ | ⟨_, rfl, rfl, rfl⟩ <;> simp [sampled_count]
    simp only [hd, hs]
    refine ⟨?_, ?_, by omega, by simp; omega⟩
    · intro k hk
      cases k with
      | zero => simp
      | succ k =>
        simp only [List.length_cons, Nat.add_lt_add_iff_right] at hk
        simp only [List.getElem_cons_succ]
        rw [i1 k hk]
        push_cast; ring
    · intro p hp
      rcases List.mem_cons.mp hp with rfl | hp
      · omega
      · exact i2 p hp

/-! ## Lemmas on batched decoding -/

theorem batch_entries_eq (tokens : List Int) (start_pos : Int) (cll : Bool) (i c : Nat)
    (hc : i + c ≤ tokens.length) :
    batch_entries tokens start_pos cll (i : Int) (c : Int)
      = ((tagged_entries tokens start_pos cll).drop i).take c := by
  apply List.ext_getElem
  · simp [batch_entries, tagged_entries]
    omega
  · intro k h1 h2
    simp only [batch_entries, tagged_entries, tagged_entry, Int.toNat_ofNat, List.getElem_map,
      List.getElem_range, List.getElem_take, List.getElem_drop]
    have e1 : ((i : Int) + (k : Int)).toNat = i + k := by omega
    have e2 : decide ((i : Int) + (k : Int) = (tokens.length : Int) - 1)
        = decide (i + k + 1 = tokens.length) := by
      rw [decide_eq_decide]; omega
    rw [e1, e2]
    congr 1
    push_cast; ring

theorem tagged_entries_length (tokens : List Int) (start_pos : Int) (cll : Bool) :
    (tagged_entries tokens start_pos cll).length = tokens.length := by
  simp [tagged_entries]

/-- The loop of `decode_tokens_in_batches` from index `i`, with enough
iterations allowed and a batch width of at least one. -/
theorem decode_loop_spec {σ : Type} (E : Engine σ) (n_batch : Int) (tokens : List Int)
    (start_pos : Int) (cll : Bool) (hb : 1 ≤ n_batch) (fuel i : Nat) (s : σ)
    (hfuel : tokens.length - i ≤ fuel) :
    ∃ s' batches ok,
      decode_loop E n_batch tokens start_pos cll fuel (i : Int) s = some (s', batches, ok) ∧
      (∀ b ∈ batches, 1 ≤ b.length ∧ (b.length : Int) ≤ n_batch) ∧
      (∃ rest, batches.flatten ++ rest = (tagged_entries tokens start_pos cll).drop i) ∧
      (replay E s batches).1 = s' ∧
      (ok = true → batches.flatten = (tagged_entries tokens start_pos cll).drop i ∧
        ∀ st ∈ (replay E s batches).2, st = 0) ∧
      (ok = false → ∃ init last, (replay E s batches).2 = init ++ [last] ∧
        (∀ x ∈ init, x = 0) ∧ last ≠ 0) := by
  induction fuel generalizing i s with
  | zero =>
    have hi : ¬ ((i : Int) < (tokens.length : Int)) := by omega
    refine ⟨s, [], true, by simp [decode_loop, hi], by simp, ⟨[], ?_⟩, by simp [replay], ?_, by simp⟩
    · simp [tagged_entries_length]; omega
    · intro _; refine ⟨?_, by simp [replay]⟩
      simp [tagged_entries_length]; omega
  | succ fuel ih =>
    by_cases hi : (i : Int) < (tokens.length : Int)
    · have hi' : i < tokens.length := by omega
      obtain ⟨c, hc⟩ : ∃ c : Nat, min ((tokens.length : Int) - (i : Int)) n_batch = (c : Int) :=
        ⟨(min ((tokens.length : Int) - (i : Int)) n_batch).toNat, by omega⟩
      have hc1 : 1 ≤ c := by omega
      have hc2 : i + c ≤ tokens.length := by omega
      have hc3 : (c : Int) ≤ n_batch := by omega
      obtain ⟨m, hm⟩ : ∃ m : Nat, n_batch = (m : Int) := ⟨n_batch.toNat, by omega⟩
      have hbatch := batch_entries_eq tokens start_pos cll i c hc2
      have hblen : (batch_entries tokens start_pos cll (i : Int) (c : Int)).length = c := by
        rw [hbatch]; simp [tagged_entries_length]; omega
      have hdrop : (tagged_entries tokens start_pos cll).drop (i + m)
          = (tagged_entries tokens start_pos cll).drop (i + c) := by
        by_cases hmc : m = c
        · rw [hmc]
        · have h1 : tokens.length ≤ i + c := by omega
          have h2 : tokens.length ≤ i + m := by omega
          rw [List.drop_eq_nil_of_le (by simpa [tagged_entries_length] using h2),
            List.drop_eq_nil_of_le (by simpa [tagged_entries_length] using h1)]
      have hsplit : (tagged_entries tokens start_pos cll).drop i
          = batch_entries tokens start_pos cll (i : Int) (c : Int)
            ++ (tagged_entries tokens start_pos cll).drop (i + m) := by
        rw [hdrop, hbatch, ← List.drop_drop, List.take_append_drop]
      rw [decode_loop]
      simp only [hi, if_true, hc]
      by_cases hr : (E.llama_decode s (batch_entries tokens start_pos cll (i : Int) (c : Int))).2 ≠ 0
      · refine ⟨(E.llama_decode s (batch_entries tokens start_pos cll (i : Int) (c : Int))).1,
          [batch_entries tokens start_pos cll (i : Int) (c : Int)], false, by simp [hr], ?_,
          ⟨(tagged_entries tokens start_pos cll).drop (i + m), ?_⟩, by simp [replay], by simp, ?_⟩
        · intro b hb'
          simp at hb'
          rw [hb', hblen]
          exact ⟨hc1, hc3⟩
        · simp only [List.flatten_cons, List.flatten_nil, List.append_nil]
          exact hsplit.symm
        · intro _
          exact ⟨[], (E.llama_decode s (batch_entries tokens start_pos cll (i : Int) (c : Int))).2,
            by simp [replay], by simp, hr⟩
      · have hr0 : (E.llama_decode s (batch_entries tokens start_pos cll (i : Int) (c : Int))).2 = 0 := by
          simpa using hr
        obtain ⟨s', batches, ok, hrun, hlen, ⟨rest, hrest⟩, hrep, hok, hfail⟩ :=
          ih (i + m) (E.llama_decode s (batch_entries tokens start_pos cll (i : Int) (c : Int))).1
            (by omega)
        have hidx : (i : Int) + n_batch = ((i + m : Nat) : Int) := by rw [hm]; push_cast; ring
        refine ⟨s', batch_entries tokens start_pos cll (i : Int) (c : Int) :: batches, ok, ?_, ?_,
          ⟨rest, ?_⟩, by simp [replay, hrep], ?_, ?_⟩
        · simp only [hr, if_false, hidx, hrun]
        · intro b hb'
          rcases List.mem_cons.mp hb' with rfl | hb'
          · rw [hblen]; exact ⟨hc1, hc3⟩
          · exact hlen b hb'
        · rw [List.flatten_cons, List.append_assoc, hrest, hsplit]
        · intro hok'
          obtain ⟨h1, h2⟩ := hok hok'
          refine ⟨by rw [List.flatten_cons, h1, hsplit], ?_⟩
          intro st hst
          simp only [replay, List.mem_cons] at hst
          rcases hst with rfl | hst
          · exact hr0
          · exact h2 st hst
        · intro hok'
          obtain ⟨init, last, h1, h2, h3⟩ := hfail hok'
          refine ⟨(E.llama_decode s (batch_entries tokens start_pos cll (i : Int) (c : Int))).2
            :: init, last, by simp [replay, h1], ?_, h3⟩
          intro x hx
          rcases List.mem_cons.mp hx with rfl | hx
          · exact hr0
          · exact h2 x hx
    · have hi' : tokens.length ≤ i := by omega
      refine ⟨s, [], true, by simp [decode_loop, hi], by simp, ⟨[], ?_⟩, by simp [replay], ?_, by simp⟩
      · simp [tagged_entries_length]; omega
      · intro _; refine ⟨?_, by simp [replay]⟩
        simp [tagged_entries_length]; omega

theorem tagged_entries_countP (tokens : List Int) (start_pos : Int) (cll : Bool) :
    (tagged_entries tokens start_pos cll).countP (fun e => e.logits)
      = if cll = true ∧ tokens ≠ [] then 1 else 0 := by
  unfold tagged_entries
  rw [List.countP_map]
  cases hn : tokens.length with
  | zero =>
    have : tokens = [] := List.length_eq_zero.mp hn
    simp [this]
  | succ m =>
    have hne : tokens ≠ [] := by
      intro h; simp [h] at hn
    rw [List.range_succ, List.countP_append]
    have h0 : List.countP ((fun e => e.logits) ∘ tagged_entry tokens start_pos cll) (List.range m)
        = 0 := by
      rw [List.countP_eq_zero]
      intro k hk
      have hk' : k < m := List.mem_range.mp hk
      simp [tagged_entry, hn]
      intro _
      omega
    rw [h0]
    cases cll <;> simp [List.countP_singleton, tagged_entry, hn, hne]

theorem flatten_getLast_of_nonempty {α : Type} (bs : List (List α)) (h : ∀ b ∈ bs, b ≠ [])
    (lastb : List α) (hl : bs.getLast? = some lastb) :
    bs.flatten.getLast? = lastb.getLast? := by
  induction bs with
  | nil => simp at hl
  | cons b bs ih =>
    cases bs with
    | nil =>
      simp at hl
      simp [hl]
    | cons b' rest =>
      have hl' : (b' :: rest).getLast? = some lastb := by
        simpa [List.getLast?_cons_cons] using hl
      have ih' := ih (fun x hx => h x (List.mem_cons_of_mem _ hx)) hl'
      have hmem : lastb ∈ b' :: rest := List.mem_of_getLast?_eq_some hl'
      have hne : lastb ≠ [] := h lastb (List.mem_cons_of_mem _ hmem)
      rw [List.flatten_cons, List.getLast?_append, ih']
      cases hx : lastb.getLast? with
      | none => exact absurd (List.getLast?_eq_none_iff.mp hx) hne
      | some x => simp

/-- With a batch width of at least one `decode_tokens_in_batches` returns. -/
theorem decode_tokens_in_batches_spec_some {σ : Type} (E : Engine σ) (s : σ)
    (session : NativeSession) (tokens : List Int) (start_pos : Int) (cll : Bool)
    (hb : 1 ≤ session.n_batch) :
    ∃ s' batches ok,
      decode_tokens_in_batches E s (some session) tokens start_pos cll = some (s', batches, ok) ∧
      (replay E s batches).1 = s' := by
  by_cases ht : tokens = []
  · subst ht
    exact ⟨s, [], true, by simp [decode_tokens_in_batches], by simp [replay]⟩
  · obtain ⟨s', batches, ok, hrun, _, _, hrep, _⟩ :=
      decode_loop_spec E session.n_batch tokens start_pos cll hb tokens.length 0 s (by omega)
    exact ⟨s', batches, ok, by simpa [decode_tokens_in_batches, ht] using hrun, hrep⟩

/-- Claim C8, counterexample. With `compute_last_logit` set, five tokens and a
batch width of 2, the engine rejects the second chunk: two chunks are
submitted, the call fails, and no submitted entry carries the logits flag,
because the last token of the sequence is never reached. The empty sequence
with `compute_last_logit` set submits nothing, so no entry carries the flag
either. -/
theorem decode_tokens_in_batches_logits_counterexample :
    decode_tokens_in_batches failing_second_chunk [] (some { session512 with n_batch := 2 })
      [10, 20, 30, 40, 50] 100 true
      = some ([], [[⟨10, 100, [0], false⟩, ⟨20, 101, [0], false⟩],
                   [⟨30, 102, [0], false⟩, ⟨40, 103, [0], false⟩]], false) ∧
    ([[⟨10, 100, [0], false⟩, ⟨20, 101, [0], false⟩],
      [⟨30, 102, [0], false⟩, ⟨40, 103, [0], false⟩]] : List (List BatchEntry)).flatten.countP
        (fun e => e.logits) = 0 ∧
    decode_tokens_in_batches (scripted piece1) [] (some session512) [] 0 true
      = some ([], [], true) :=
  ⟨rfl, by decide, rfl⟩

/-- Claim C8, amended. For a batch width of at least one,
`decode_tokens_in_batches` returns, and the batches it submits to
`llama_decode`, in order, are consecutive chunks of the token sequence: each
holds between 1 and `n_batch` entries and their concatenation is a prefix of
the sequence of tagged entries, in which the token at offset `k` carries
position `start_pos + k` and the logits flag is set only on the last token of
the whole sequence and only when `compute_last_logit` is set. The number of
submitted entries that carry the flag is one when `compute_last_logit` is set,
the sequence is not empty and all of it was submitted, and zero in every other
case; when it is one, the flagged entry is the last entry of the last chunk.
The call fails exactly when the statuses of the submitted chunks are zeros
followed by one non-zero status (it stops at the first failing chunk), and
succeeds exactly when every chunk of the whole sequence was submitted with
status 0; an empty sequence succeeds without any submission. -/
theorem decode_tokens_in_batches_chunks {σ : Type} (E : Engine σ) (s : σ)
    (session : NativeSession) (tokens : List Int) (start_pos : Int) (compute_last_logit : Bool)
    (hb : 1 ≤ session.n_batch) :
    ∃ s' batches ok,
      decode_tokens_in_batches E s (some session) tokens start_pos compute_last_logit
        = some (s', batches, ok) ∧
      (∀ b ∈ batches, 1 ≤ b.length ∧ (b.length : Int) ≤ session.n_batch) ∧
      batches.flatten <+: tagged_entries tokens start_pos compute_last_logit ∧
      batches.flatten.countP (fun e => e.logits)
        = (if compute_last_logit = true ∧ tokens ≠ [] ∧
              batches.flatten = tagged_entries tokens start_pos compute_last_logit
           then 1 else 0) ∧
      batches.flatten.countP (fun e => e.logits) ≤ 1 ∧
      (compute_last_logit = false → batches.flatten.countP (fun e => e.logits) = 0) ∧
      (compute_last_logit = true → tokens ≠ [] →
        batches.flatten = tagged_entries tokens start_pos compute_last_logit →
        batches.flatten.countP (fun e => e.logits) = 1 ∧
        ∃ lastb e, batches.getLast? = some lastb ∧ lastb.getLast? = some e ∧ e.logits = true ∧
          e = tagged_entry tokens start_pos compute_last_logit (tokens.length - 1)) ∧
      (replay E s batches).1 = s' ∧
      (ok = false ↔ ∃ init last, (replay E s batches).2 = init ++ [last] ∧
        (∀ x ∈ init, x = 0) ∧ last ≠ 0) ∧
      (ok = true ↔ batches.flatten = tagged_entries tokens start_pos compute_last_logit ∧
        ∀ st ∈ (replay E s batches).2, st = 0) ∧
      (tokens = [] → batches = [] ∧ ok = true) := by
  have hspec : ∃ s' batches ok,
      decode_tokens_in_batches E s (some session) tokens start_pos compute_last_logit
        = some (s', batches, ok) ∧
      (∀ b ∈ batches, 1 ≤ b.length ∧ (b.length : Int) ≤ session.n_batch) ∧
      (∃ rest, batches.flatten ++ rest = tagged_entries tokens start_pos compute_last_logit) ∧
      (replay E s batches).1 = s' ∧
      (ok = true → batches.flatten = tagged_entries tokens start_pos compute_last_logit ∧
        ∀ st ∈ (replay E s batches).2, st = 0) ∧
      (ok = false → ∃ init last, (replay E s batches).2 = init ++ [last] ∧
        (∀ x ∈ init, x = 0) ∧ last ≠ 0) ∧
      (tokens = [] → batches = [] ∧ ok = true) := by
    by_cases ht : tokens = []
    · subst ht
      exact ⟨s, [], true, by simp [decode_tokens_in_batches], by simp, ⟨[], by simp [tagged_entries]⟩,
        by simp [replay], fun _ => ⟨by simp [tagged_entries], by simp [replay]⟩, by simp,
        fun _ => ⟨rfl, rfl⟩⟩
    · obtain ⟨s', batches, ok, hrun, hlen, hpre, hrep, hok, hfail⟩ :=
        decode_loop_spec E session.n_batch tokens start_pos compute_last_logit hb
          tokens.length 0 s (by omega)
      refine ⟨s', batches, ok, ?_, hlen, ?_, hrep, ?_, hfail, fun h => absurd h ht⟩
      · simpa [decode_tokens_in_batches, ht] using hrun
      · simpa using hpre
      · simpa using hok
  obtain ⟨s', batches, ok, hrun, hlen, ⟨rest, hrest⟩, hrep, hok, hfail, hempty⟩ := hspec
  have hpre0 : batches.flatten <+: tagged_entries tokens start_pos compute_last_logit :=
    ⟨rest, hrest⟩
  have hcount := hpre0.countP_le (fun e => e.logits)
  rw [tagged_entries_countP] at hcount
  have hlastT : tokens ≠ [] → (tagged_entries tokens start_pos compute_last_logit).getLast?
      = some (tagged_entry tokens start_pos compute_last_logit (tokens.length - 1)) := by
    intro hne
    have hlen0 : tokens.length ≠ 0 := fun h => hne (List.length_eq_zero.mp h)
    simp [tagged_entries, List.getLast?_range, hlen0]
  refine ⟨s', batches, ok, hrun, hlen, hpre0, ?_, ?_, ?_, ?_, hrep, ⟨hfail, ?_⟩, ⟨hok, ?_⟩,
    hempty⟩
  · by_cases hfull : batches.flatten = tagged_entries tokens start_pos compute_last_logit
    · rw [if_congr (and_congr_right fun _ => and_congr_right fun _ => iff_true_intro hfull)
        rfl rfl]
      rw [hfull, tagged_entries_countP]
      simp
    · have hz : batches.flatten.countP (fun e => e.logits) = 0 := by
        cases hc : compute_last_logit with
        | false => simpa [hc] using hcount
        | true =>
          have hrne : rest ≠ [] := by
            intro h0
            apply hfull
            rw [← hrest, h0, List.append_nil]
          have hne : tokens ≠ [] := by
            intro h0
            have hnil : tagged_entries tokens start_pos compute_last_logit = [] := by
              simp [tagged_entries, h0]
            rw [hnil] at hrest
            exact hrne (List.append_eq_nil.mp hrest).2
          have hl := hlastT hne
          rw [← hrest, List.getLast?_append_of_ne_nil _ hrne] at hl
          have hmem := List.mem_of_getLast?_eq_some hl
          have hflag : (tagged_entry tokens start_pos compute_last_logit
              (tokens.length - 1)).logits = true := by
            have hlen0 : tokens.length ≠ 0 := fun h => hne (List.length_eq_zero.mp h)
            simp [tagged_entry, hc]
            omega
          have hpos : 0 < rest.countP (fun e => e.logits) :=
            List.countP_pos_iff.mpr ⟨_, hmem, hflag⟩
          have htot := tagged_entries_countP tokens start_pos compute_last_logit
          rw [← hrest, List.countP_append] at htot
          split_ifs at htot <;> omega
      rw [hz]
      simp [hfull]
  · split_ifs at hcount <;> omega
  · intro hc
    simpa [hc] using hcount
  · intro hc hne hfl
    have hlast := hlastT hne
    refine ⟨by rw [hfl, tagged_entries_countP]; simp [hc, hne], ?_⟩
    cases hbl : batches.getLast? with
    | none =>
      have : batches = [] := List.getLast?_eq_none_iff.mp hbl
      rw [this] at hfl
      simp [← hfl] at hlast
    | some lastb =>
      have hnonempty : ∀ b ∈ batches, b ≠ [] := by
        intro b hb' h0
        have := (hlen b hb').1
        simp [h0] at this
      have hfl2 := flatten_getLast_of_nonempty batches hnonempty lastb hbl
      rw [hfl, hlast] at hfl2
      refine ⟨lastb, _, rfl, hfl2.symm, ?_, rfl⟩
      have hlen0 : tokens.length ≠ 0 := fun h => hne (List.length_eq_zero.mp h)
      simp [tagged_entry, hc]
      omega
  · rintro ⟨init, last, h1, h2, h3⟩
    cases hokv : ok with
    | false => rfl
    | true =>
      have := (hok hokv).2 last (by rw [h1]; simp)
      exact absurd this h3
  · rintro ⟨_, hall⟩
    cases hokv : ok with
    | true => rfl
    | false =>
      obtain ⟨init, last, h1, _, h3⟩ := hfail hokv
      exact absurd (hall last (by rw [h1]; simp)) h3

/-- Witness for the amended C8: five tokens, batch width 2, second chunk
failing. -/
theorem decode_tokens_in_batches_chunks_witness :
    (1 : Int) ≤ ({ session512 with n_batch := 2 } : NativeSession).n_batch ∧
    ∃ s' batches ok,
      decode_tokens_in_batches failing_second_chunk [] (some { session512 with n_batch := 2 })
        [10, 20, 30, 40, 50] 100 true = some (s', batches, ok) ∧
      batches.flatten <+: tagged_entries [10, 20, 30, 40, 50] 100 true ∧
      batches.flatten.countP (fun e => e.logits) ≤ 1 :=
  ⟨by decide, by
    obtain ⟨s', batches, ok, h1, _, h3, _, h5, _⟩ := decode_tokens_in_batches_chunks
      failing_second_chunk [] { session512 with n_batch := 2 } [10, 20, 30, 40, 50] 100 true
      (by decide)
    exact ⟨s', batches, ok, h1, h3, h5⟩⟩

/-! ## Lemmas on `nativeGenerate` -/

theorem recreate_sampler_n_ctx {σ : Type} (E : Engine σ) (s : σ) (session : NativeSession) :
    (recreate_sampler E s session).2.1.n_ctx = session.n_ctx ∧
    (recreate_sampler E s session).2.1.n_batch = session.n_batch := by
  unfold recreate_sampler
  split_ifs <;> simp

/-- The ways a `nativeGenerate` call can end: either it throws before the
generation loop, with no loop event, or it reaches the loop, and then its
trace, pending buffer and result are those of `generate_loop` started with
empty buffers at the prompt length. -/
theorem nativeGenerate_cases {σ : Type} (E : Engine σ) (s : σ) (handle : Option NativeSession)
    (prompt : Option (List Nat)) (maxTokens : Int) (r : GenResult σ)
    (h : Java_com_secondsense_llm_LlamaNativeBridge_nativeGenerate
        E s handle prompt maxTokens = some r) :
    (r.trace = [] ∧ r.pending_utf8 = [] ∧ ∃ e, r.result = .error e) ∨
    (∃ session p s1 batches,
      handle = some session ∧ prompt = some p ∧
      E.common_tokenize (recreate_sampler E (E.llama_memory_clear s) session).1 (c_str p) ≠ [] ∧
      ((E.common_tokenize (recreate_sampler E (E.llama_memory_clear s) session).1
          (c_str p)).length : Int) < session.n_ctx - 4 ∧
      r.prompt_batches = batches ∧
      r.trace = (generate_loop E (recreate_sampler E (E.llama_memory_clear s) session).2.1
        (n_predict_of (recreate_sampler E (E.llama_memory_clear s) session).2.1 maxTokens
          (E.common_tokenize (recreate_sampler E (E.llama_memory_clear s) session).1
            (c_str p)).length).toNat
        { eng := s1, output := [], pending_utf8 := [], generated_tokens := 0,
          current_position := ((E.common_tokenize
            (recreate_sampler E (E.llama_memory_clear s) session).1 (c_str p)).length : Int) }).2.1 ∧
      r.pending_utf8 = (generate_loop E (recreate_sampler E (E.llama_memory_clear s) session).2.1
        (n_predict_of (recreate_sampler E (E.llama_memory_clear s) session).2.1 maxTokens
          (E.common_tokenize (recreate_sampler E (E.llama_memory_clear s) session).1
            (c_str p)).length).toNat
        { eng := s1, output := [], pending_utf8 := [], generated_tokens := 0,
          current_position := ((E.common_tokenize
            (recreate_sampler E (E.llama_memory_clear s) session).1 (c_str p)).length : Int) }).1.pending_utf8 ∧
      r.result = (if (generate_loop E (recreate_sampler E (E.llama_memory_clear s) session).2.1
        (n_predict_of (recreate_sampler E (E.llama_memory_clear s) session).2.1 maxTokens
          (E.common_tokenize (recreate_sampler E (E.llama_memory_clear s) session).1
            (c_str p)).length).toNat
        { eng := s1, output := [], pending_utf8 := [], generated_tokens := 0,
          current_position := ((E.common_tokenize
            (recreate_sampler E (E.llama_memory_clear s) session).1 (c_str p)).length : Int) }).2.2 = false
        then .error .token_decode_failed
        else .ok (c_str (generate_loop E (recreate_sampler E (E.llama_memory_clear s) session).2.1
        (n_predict_of (recreate_sampler E (E.llama_memory_clear s) session).2.1 maxTokens
          (E.common_tokenize (recreate_sampler E (E.llama_memory_clear s) session).1
            (c_str p)).length).toNat
        { eng := s1, output := [], pending_utf8 := [], generated_tokens := 0,
          current_position := ((E.common_tokenize
            (recreate_sampler E (E.llama_memory_clear s) session).1 (c_str p)).length : Int) }).1.output))) := by
  unfold Java_com_secondsense_llm_LlamaNativeBridge_nativeGenerate at h
  split at h
  · simp at h; subst h; left; simp
  · rename_i session
    split at h
    · simp at h; subst h; left; simp
    · rename_i p
      dsimp only at h
      split_ifs at h with h1 h2 h3 h4
      · simp at h; subst h; left; simp
      · simp at h; subst h; left; simp
      · simp at h; subst h; left; simp
      · simp at h; subst h; left; simp
      · split at h
        · simp at h
        · rename_i s1 batches ok hdec
          split_ifs at h with h5 h6
          · simp at h; subst h; left; simp
          · simp at h; subst h
            right
            refine ⟨session, p, s1, batches, rfl, rfl, h3, ?_, rfl, rfl, rfl, ?_⟩
            · have := (recreate_sampler_n_ctx E (E.llama_memory_clear s) session).1
              omega
            · simp [h6]
          · simp at h; subst h
            right
            refine ⟨session, p, s1, batches, rfl, rfl, h3, ?_, rfl, rfl, rfl, ?_⟩
            · have := (recreate_sampler_n_ctx E (E.llama_memory_clear s) session).1
              omega
            · simp [h6]

/-! ## Generation: claims C1, C2, C3, C4, C9 -/

/-- With a batch width of at least one a `nativeGenerate` call returns. -/
theorem nativeGenerate_returns {σ : Type} (E : Engine σ) (s : σ)
    (handle : Option NativeSession) (prompt : Option (List Nat)) (maxTokens : Int)
    (hb : ∀ session, handle = some session → 1 ≤ session.n_batch) :
    ∃ r, Java_com_secondsense_llm_LlamaNativeBridge_nativeGenerate
        E s handle prompt maxTokens = some r := by
  cases handle with
  | none => exact ⟨_, rfl⟩
  | some session =>
  have hb := hb session rfl
  unfold Java_com_secondsense_llm_LlamaNativeBridge_nativeGenerate
  cases prompt with
  | none => exact ⟨_, rfl⟩
  | some p =>
    dsimp only
    split_ifs with h1 h2 h3 h4
    · exact ⟨_, rfl⟩
    · exact ⟨_, rfl⟩
    · exact ⟨_, rfl⟩
    · exact ⟨_, rfl⟩
    · have hb' : 1 ≤ (recreate_sampler E (E.llama_memory_clear s) session).2.1.n_batch := by
        rw [(recreate_sampler_n_ctx E (E.llama_memory_clear s) session).2]; exact hb
      obtain ⟨s', batches, ok, hrun, _⟩ := decode_tokens_in_batches_spec_some E
        (recreate_sampler E (E.llama_memory_clear s) session).1
        (recreate_sampler E (E.llama_memory_clear s) session).2.1
        (E.common_tokenize (recreate_sampler E (E.llama_memory_clear s) session).1 (c_str p))
        0 true hb'
      rw [hrun]
      dsimp only
      split_ifs
      · exact ⟨_, rfl⟩
      · exact ⟨_, rfl⟩
      · exact ⟨_, rfl⟩

/-- Claim C1. A `nativeGenerate` call returns whenever the batch width of its
session is at least one (as it is for every loaded session), and whenever it
returns a string `out` (the output buffer up to its first NUL byte), whatever
text fragments the sampled tokens produced:
`is_valid_utf8` accepts `out`; `out` is a concatenation of complete units, each
a lead byte followed by exactly the continuation bytes it announces; `out`
holds only text that was moved to the output buffer, each moved chunk having
passed `is_valid_utf8`; and the bytes left in the pending buffer are the rest
of the emitted fragments, not part of the result. -/
theorem generate_returns_complete_utf8 {σ : Type} (E : Engine σ) (s : σ)
    (handle : Option NativeSession) (prompt : Option (List Nat)) (maxTokens : Int) :
    ((∀ session, handle = some session → 1 ≤ session.n_batch) →
      ∃ r, Java_com_secondsense_llm_LlamaNativeBridge_nativeGenerate
          E s handle prompt maxTokens = some r) ∧
    ∀ r, Java_com_secondsense_llm_LlamaNativeBridge_nativeGenerate
        E s handle prompt maxTokens = some r →
      (∀ chunk, Event.appended chunk ∈ r.trace → is_valid_utf8 (c_str chunk) = true) ∧
      appended_text r.trace ++ r.pending_utf8 = emitted_text r.trace ∧
      ∀ out, r.result = .ok out →
        is_valid_utf8 out = true ∧ CompleteUnits out ∧ (∀ b ∈ out, b ≠ 0) ∧
        out = c_str (appended_text r.trace) := by
  refine ⟨nativeGenerate_returns E s handle prompt maxTokens, ?_⟩
  intro r hr
  rcases nativeGenerate_cases E s _ prompt maxTokens r hr with
    ⟨h1, h2, e, he⟩ | ⟨sess, p, s1, batches, _, _, _, _, _, htr, hpend, hres⟩
  · refine ⟨by simp [h1], by simp [h1, h2, appended_text, emitted_text], ?_⟩
    intro out hout
    rw [he] at hout
    cases hout
  · have ht := generate_loop_text E (recreate_sampler E (E.llama_memory_clear s) sess).2.1
      (n_predict_of (recreate_sampler E (E.llama_memory_clear s) sess).2.1 maxTokens
        (E.common_tokenize (recreate_sampler E (E.llama_memory_clear s) sess).1 (c_str p)).length).toNat
      { eng := s1, output := [], pending_utf8 := [], generated_tokens := 0,
        current_position := ((E.common_tokenize
          (recreate_sampler E (E.llama_memory_clear s) sess).1 (c_str p)).length : Int) }
    rw [← htr, ← hpend] at ht
    obtain ⟨t1, t2, t3, t4⟩ := ht
    simp only [List.nil_append] at t1 t2
    refine ⟨t4, t2.symm, ?_⟩
    intro out hout
    rw [hres] at hout
    split_ifs at hout with hfail
    simp only [Except.ok.injEq] at hout
    have hvalid := t3 (by simp [is_valid_utf8, utf8_scan])
    rw [t1] at hout hvalid
    subst hout
    have hv : is_valid_utf8 (c_str (appended_text r.trace)) = true := by
      unfold is_valid_utf8 at hvalid ⊢
      rw [utf8_scan_c_str]; exact hvalid
    exact ⟨hv, is_valid_utf8_complete_units _ (c_str_ne_zero _) hv, c_str_ne_zero _, rfl⟩

/-- Witness for C1: the lead byte `0xC3` and its continuation `0xA9` arrive in
two tokens, then a lone lead byte that stays pending. -/
theorem generate_returns_complete_utf8_witness :
    (1 : Int) ≤ session512.n_batch ∧
    (Java_com_secondsense_llm_LlamaNativeBridge_nativeGenerate
        (scripted piece1) [3, 4, 3] (some session512) (some [104]) 8).map
      (fun r => (r.result, r.pending_utf8)) = some (.ok [0xC3, 0xA9], [0xC3]) ∧
    ∃ r, Java_com_secondsense_llm_LlamaNativeBridge_nativeGenerate
        (scripted piece1) [3, 4, 3] (some session512) (some [104]) 8 = some r ∧
      ∀ out, r.result = .ok out → is_valid_utf8 out = true :=
  ⟨by decide, rfl, by
    obtain ⟨h0, hall⟩ := generate_returns_complete_utf8 (scripted piece1) [3, 4, 3]
      (some session512) (some [104]) 8
    obtain ⟨r, h1⟩ := h0 (fun session hs => by cases hs; decide)
    exact ⟨r, h1, fun out hout => ((hall r h1).2.2 out hout).1⟩⟩

/-- Claim C2. A `nativeGenerate` call returns whenever the batch width of its
session is at least one, and in the events of its generation loop nothing
follows a point
at which the output buffer (the text appended so far) contains a complete
top-level object: no token is sampled, no fragment added, no chunk appended
and no token decoded after it. If the final output buffer contains a complete
object, the last event is the append that completed it, the buffer held no
complete object before that append, and the call returns the buffer. -/
theorem generation_stops_at_first_object {σ : Type} (E : Engine σ) (s : σ)
    (handle : Option NativeSession) (prompt : Option (List Nat)) (maxTokens : Int) :
    ((∀ session, handle = some session → 1 ≤ session.n_batch) →
      ∃ r, Java_com_secondsense_llm_LlamaNativeBridge_nativeGenerate
          E s handle prompt maxTokens = some r) ∧
    ∀ r, Java_com_secondsense_llm_LlamaNativeBridge_nativeGenerate
        E s handle prompt maxTokens = some r →
      (∀ pre post, r.trace = pre ++ post →
        has_complete_json_object (appended_text pre) = true → post = []) ∧
      (has_complete_json_object (appended_text r.trace) = true →
        ∃ pre chunk, r.trace = pre ++ [Event.appended chunk] ∧
          has_complete_json_object (appended_text pre) = false ∧
          r.result = .ok (c_str (appended_text r.trace))) := by
  refine ⟨nativeGenerate_returns E s handle prompt maxTokens, ?_⟩
  intro r hr
  rcases nativeGenerate_cases E s _ prompt maxTokens r hr with
    ⟨h1, h2, e, he⟩ | ⟨sess, p, s1, batches, _, _, _, _, _, htr, hpend, hres⟩
  · rw [h1]
    refine ⟨?_, by simp [appended_text, has_complete_json_object, json_run, JsonScan.init]⟩
    intro pre post hsplit _
    exact (List.append_eq_nil.mp hsplit.symm).2
  · have h0 : has_complete_json_object ([] : List Nat) = false := by
      simp [has_complete_json_object, json_run]
    have ht := generate_loop_text E (recreate_sampler E (E.llama_memory_clear s) sess).2.1
      (n_predict_of (recreate_sampler E (E.llama_memory_clear s) sess).2.1 maxTokens
        (E.common_tokenize (recreate_sampler E (E.llama_memory_clear s) sess).1 (c_str p)).length).toNat
      { eng := s1, output := [], pending_utf8 := [], generated_tokens := 0,
        current_position := ((E.common_tokenize
          (recreate_sampler E (E.llama_memory_clear s) sess).1 (c_str p)).length : Int) }
    have hs := generate_loop_stops E (recreate_sampler E (E.llama_memory_clear s) sess).2.1
      (n_predict_of (recreate_sampler E (E.llama_memory_clear s) sess).2.1 maxTokens
        (E.common_tokenize (recreate_sampler E (E.llama_memory_clear s) sess).1 (c_str p)).length).toNat
      { eng := s1, output := [], pending_utf8 := [], generated_tokens := 0,
        current_position := ((E.common_tokenize
          (recreate_sampler E (E.llama_memory_clear s) sess).1 (c_str p)).length : Int) } h0
    rw [← htr] at ht hs
    obtain ⟨t1, _⟩ := ht
    obtain ⟨s1', s2'⟩ := hs
    simp only [List.nil_append] at t1 s1' s2'
    refine ⟨s1', ?_⟩
    intro hobj
    rw [t1] at s2'
    obtain ⟨hok, pre, chunk, hsplit, hpre⟩ := s2' hobj
    refine ⟨pre, chunk, hsplit, hpre, ?_⟩
    rw [hres, t1]
    simp [hok]

/-- Witness for C2: the model emits an opening brace, a closing brace with a
line feed, and would go on; the loop ends with the second append. -/
theorem generation_stops_at_first_object_witness :
    (1 : Int) ≤ session512.n_batch ∧
    (Java_com_secondsense_llm_LlamaNativeBridge_nativeGenerate
        (scripted piece1) [1, 2, 5, 5] (some session512) (some [104, 105]) 8).map
      (fun r => r.trace) = some [.sampled 1, .fragment [123], .appended [123], .decoded 1 2,
        .sampled 2, .fragment [125, 10], .appended [125, 10]] ∧
    ∃ r, Java_com_secondsense_llm_LlamaNativeBridge_nativeGenerate
        (scripted piece1) [1, 2, 5, 5] (some session512) (some [104, 105]) 8
        = some r ∧
      ∀ pre post, r.trace = pre ++ post →
        has_complete_json_object (appended_text pre) = true → post = [] :=
  ⟨by decide, rfl, by
    obtain ⟨h0, hall⟩ := generation_stops_at_first_object (scripted piece1) [1, 2, 5, 5]
      (some session512) (some [104, 105]) 8
    obtain ⟨r, h1⟩ := h0 (fun session hs => by cases hs; decide)
    exact ⟨r, h1, (hall r h1).1⟩⟩

/-- Claim C3, counterexample. The model emits an opening brace, then a token
whose text is a closing brace followed by a line feed, then further tokens.
The first complete object is `{}`, but the returned string is `{}` followed by
the line feed: it does not end with the closing brace. -/
theorem generate_ends_after_object_counterexample :
    ∃ r, Java_com_secondsense_llm_LlamaNativeBridge_nativeGenerate
        (scripted piece1) [1, 2, 5, 5] (some session512) (some [104, 105]) 8
        = some r ∧
      r.result = .ok [123, 125, 10] ∧
      has_complete_json_object [123, 125] = true ∧
      has_complete_json_object [123] = false ∧
      ([123, 125, 10] : List Nat).getLast? ≠ some 125 :=
  ⟨_, rfl, rfl, by decide, by decide, by decide⟩

/-- Claim C3, amended. A `nativeGenerate` call returns whenever the batch width
of its session is at least one, and when the output buffer of a call contains
a complete top-level object: the last event of the loop is the append of a
chunk, the buffer before that chunk held no complete object, and the returned
string is the buffer, whole chunk included, cut at its first NUL byte: a
prefix of the buffer, and the buffer itself when it holds no NUL byte. The
closing brace of the first complete object lies in that last chunk: the
shortest accepted prefix `q ++ [125]` of the buffer reaches into it. When no
complete object is left after removing the last byte of the chunk, the buffer
is exactly `q ++ [125]`, and if it also holds no NUL byte the returned string
is `q ++ [125]`: it ends with that brace. Otherwise the rest of the chunk
follows the brace. -/
theorem generate_ends_with_completing_chunk {σ : Type} (E : Engine σ) (s : σ)
    (handle : Option NativeSession) (prompt : Option (List Nat)) (maxTokens : Int) :
    ((∀ session, handle = some session → 1 ≤ session.n_batch) →
      ∃ r, Java_com_secondsense_llm_LlamaNativeBridge_nativeGenerate
          E s handle prompt maxTokens = some r) ∧
    ∀ r, Java_com_secondsense_llm_LlamaNativeBridge_nativeGenerate
        E s handle prompt maxTokens = some r →
      (has_complete_json_object (appended_text r.trace) = true →
        ∃ pre chunk q, r.trace = pre ++ [Event.appended chunk] ∧
          r.result = .ok (c_str (appended_text pre ++ chunk)) ∧
          ((∀ b ∈ appended_text pre ++ chunk, b ≠ 0) →
            r.result = .ok (appended_text pre ++ chunk)) ∧
          has_complete_json_object (appended_text pre) = false ∧
          (q ++ [125]) <+: (appended_text pre ++ chunk) ∧
          has_complete_json_object (q ++ [125]) = true ∧
          (∀ t, t <+: q ++ [125] → t ≠ q ++ [125] → has_complete_json_object t = false) ∧
          (appended_text pre).length ≤ q.length ∧
          (∃ out, r.result = .ok out ∧ out <+: appended_text pre ++ chunk) ∧
          (has_complete_json_object (appended_text pre ++ chunk.dropLast) = false →
            appended_text pre ++ chunk = q ++ [125]) ∧
          ((∀ b ∈ appended_text pre ++ chunk, b ≠ 0) →
            has_complete_json_object (appended_text pre ++ chunk.dropLast) = false →
            r.result = .ok (q ++ [125]))) := by
  refine ⟨nativeGenerate_returns E s handle prompt maxTokens, ?_⟩
  intro r hr hobj
  rcases nativeGenerate_cases E s _ prompt maxTokens r hr with
    ⟨h1, h2, e, he⟩ | ⟨sess, p, s1, batches, _, _, _, _, _, htr, hpend, hres⟩
  · rw [h1] at hobj
    simp [appended_text, has_complete_json_object, json_run] at hobj
  · have h0 : has_complete_json_object ([] : List Nat) = false := by
      simp [has_complete_json_object, json_run]
    have ht := generate_loop_text E (recreate_sampler E (E.llama_memory_clear s) sess).2.1
      (n_predict_of (recreate_sampler E (E.llama_memory_clear s) sess).2.1 maxTokens
        (E.common_tokenize (recreate_sampler E (E.llama_memory_clear s) sess).1 (c_str p)).length).toNat
      { eng := s1, output := [], pending_utf8 := [], generated_tokens := 0,
        current_position := ((E.common_tokenize
          (recreate_sampler E (E.llama_memory_clear s) sess).1 (c_str p)).length : Int) }
    have hs := generate_loop_stops E (recreate_sampler E (E.llama_memory_clear s) sess).2.1
      (n_predict_of (recreate_sampler E (E.llama_memory_clear s) sess).2.1 maxTokens
        (E.common_tokenize (recreate_sampler E (E.llama_memory_clear s) sess).1 (c_str p)).length).toNat
      { eng := s1, output := [], pending_utf8 := [], generated_tokens := 0,
        current_position := ((E.common_tokenize
          (recreate_sampler E (E.llama_memory_clear s) sess).1 (c_str p)).length : Int) } h0
    rw [← htr] at ht hs
    obtain ⟨t1, _⟩ := ht
    obtain ⟨_, s2'⟩ := hs
    simp only [List.nil_append] at t1 s2'
    rw [t1] at s2'
    obtain ⟨hok, pre, chunk, hsplit, hpre⟩ := s2' hobj
    have hbuf : appended_text r.trace = appended_text pre ++ chunk := by
      rw [hsplit, appended_text_append]; simp [appended_text]
    have hres' : r.result = .ok (c_str (appended_text pre ++ chunk)) := by
      rw [hres, t1, hbuf]; simp [hok]
    rw [hbuf] at hobj
    have hnone : json_run (appended_text pre ++ chunk) 0 JsonScan.init = none := by
      unfold has_complete_json_object at hobj
      cases hrun : json_run (appended_text pre ++ chunk) 0 JsonScan.init with
      | none => rfl
      | some st => simp [hrun] at hobj
    obtain ⟨q, rest, st, hq, hrun, hstep⟩ := json_run_none_split _ 0 JsonScan.init hnone
    have hqa : has_complete_json_object (q ++ [125]) = true := by
      unfold has_complete_json_object
      rw [json_run_append, hrun]
      simp only [zero_add] at hstep
      simp [json_run, hstep]
    have hqpre : (q ++ [125]) <+: (appended_text pre ++ chunk) := ⟨rest, by simp [hq]⟩
    have hshort : ∀ t, t <+: q ++ [125] → t ≠ q ++ [125] → has_complete_json_object t = false := by
      intro t ht hne
      have htq : t <+: q := by
        rcases List.prefix_concat_iff.mp (by simpa using ht) with h1 | h1
        · exact absurd (by simpa using h1) hne
        · exact h1
      obtain ⟨st'', hst''⟩ := json_run_prefix_some hrun htq
      simp [has_complete_json_object, hst'']
    have hlen : (appended_text pre).length ≤ q.length := by
      by_contra hcon
      have hlt : (q ++ [125]).length ≤ (appended_text pre).length := by
        simp; omega
      have hpp : (q ++ [125]) <+: appended_text pre :=
        List.prefix_of_prefix_length_le hqpre (List.prefix_append _ _) hlt
      obtain ⟨u, hu⟩ := hpp
      have := has_complete_json_object_append u hqa
      rw [hu, hpre] at this
      cases this
    have hlast : has_complete_json_object (appended_text pre ++ chunk.dropLast) = false →
        appended_text pre ++ chunk = q ++ [125] := ?_
    · refine ⟨pre, chunk, q, hsplit, hres', ?_, hpre, hqpre, hqa, hshort, hlen,
        ⟨_, hres', List.takeWhile_prefix _⟩, hlast, ?_⟩
      · intro hz
        rw [hres', c_str_of_ne_zero _ hz]
      · intro hz hdrop
        rw [hres', c_str_of_ne_zero _ hz, hlast hdrop]
    · intro hdrop
      have hchunk : chunk ≠ [] := by
        intro hc
        rw [hc, List.append_nil, hpre] at hobj
        cases hobj
      have hdl : (appended_text pre ++ chunk).dropLast = appended_text pre ++ chunk.dropLast :=
        List.dropLast_append_of_ne_nil _ hchunk
      by_contra hne
      have hlt : (q ++ [125]).length ≤ (appended_text pre ++ chunk.dropLast).length := by
        have h1 := hqpre.length_le
        have h2 : (q ++ [125]).length ≠ (appended_text pre ++ chunk).length := by
          intro heq
          exact hne (List.IsPrefix.eq_of_length hqpre heq).symm
        have h3 : (appended_text pre ++ chunk.dropLast).length
            = (appended_text pre ++ chunk).length - 1 := by
          rw [← hdl, List.length_dropLast]
        omega
      have hpp : (q ++ [125]) <+: appended_text pre ++ chunk.dropLast :=
        List.prefix_of_prefix_length_le hqpre
          (by rw [← hdl]; exact List.dropLast_prefix _) hlt
      obtain ⟨u, hu⟩ := hpp
      have := has_complete_json_object_append u hqa
      rw [hu, hdrop] at this
      cases this

/-- Witness for the amended C3: the model emits an opening brace and then a
closing brace alone; the buffer `{}` has no NUL byte and its last chunk ends
with the completing brace, so the returned string is `{}`. With a NUL byte
emitted first, the buffer is NUL `{}` and the returned string is empty. -/
theorem generate_ends_with_completing_chunk_witness :
    (1 : Int) ≤ session512.n_batch ∧
    (Java_com_secondsense_llm_LlamaNativeBridge_nativeGenerate (scripted piece1) [7, 1, 6, 5]
      (some session512) (some [104, 105]) 8).map (fun r => (r.result, appended_text r.trace))
      = some (.ok [], [0, 123, 125]) ∧
    ∃ r, Java_com_secondsense_llm_LlamaNativeBridge_nativeGenerate (scripted piece1) [1, 6, 5]
        (some session512) (some [104, 105]) 8 = some r ∧
      has_complete_json_object (appended_text r.trace) = true ∧
      r.result = .ok [123, 125] ∧
      ∃ q, r.result = .ok (q ++ [125]) := by
  refine ⟨by decide, rfl, ?_⟩
  obtain ⟨h0, hall⟩ := generate_ends_with_completing_chunk (scripted piece1) [1, 6, 5]
    (some session512) (some [104, 105]) 8
  obtain ⟨r, h1⟩ := h0 (fun session hs => by cases hs; decide)
  have h2 := hall r h1
  have htr : (Java_com_secondsense_llm_LlamaNativeBridge_nativeGenerate (scripted piece1)
      [1, 6, 5] (some session512) (some [104, 105]) 8).map (fun r => (r.trace, r.result))
      = some ([.sampled 1, .fragment [123], .appended [123], .decoded 1 2,
          .sampled 6, .fragment [125]] ++ [.appended [125]], .ok [123, 125]) := rfl
  rw [h1] at htr
  simp only [Option.map_some', Option.some.injEq, Prod.mk.injEq] at htr
  obtain ⟨htr, hres⟩ := htr
  have hobj : has_complete_json_object (appended_text r.trace) = true := by
    rw [htr]; decide
  obtain ⟨pre, chunk, q, h3, _, _, _, _, _, _, _, _, _, h13⟩ := h2 hobj
  obtain ⟨hp, hc⟩ := List.append_inj' (htr.symm.trans h3) rfl
  simp only [List.cons.injEq, Event.appended.injEq, and_true] at hc
  subst hp hc
  exact ⟨r, h1, hobj, hres, q, h13 (by decide) (by decide)⟩

/-- Claim C9. A `nativeGenerate` call returns whenever the batch width of its
session is at least one. Its generation loop runs only after the prompt-length check was
passed (prompt length below `n_ctx - 4`); the single-token decodes of the loop
are submitted at consecutive positions starting at the prompt length, the
`k`-th at `prompt length + k`, each strictly below `n_ctx - 2`, so the cursor,
which is the prompt length at the start and one more than the last decoded
position afterwards, never exceeds `n_ctx - 2`; at most one token is decoded
per sampled token, and the number of sampled tokens is at most `n_predict`,
which is `maxTokens` when that is positive and
`max 1 (n_ctx - prompt length - 2)` otherwise. -/
theorem generate_cursor_bounded {σ : Type} (E : Engine σ) (s : σ)
    (session : NativeSession) (p : List Nat) (maxTokens : Int) :
    (1 ≤ session.n_batch →
      ∃ r, Java_com_secondsense_llm_LlamaNativeBridge_nativeGenerate
          E s (some session) (some p) maxTokens = some r) ∧
    ∀ r, Java_com_secondsense_llm_LlamaNativeBridge_nativeGenerate
        E s (some session) (some p) maxTokens = some r →
      (r.trace ≠ [] →
        ((E.common_tokenize (recreate_sampler E (E.llama_memory_clear s) session).1
          (c_str p)).length : Int) < session.n_ctx - 4) ∧
      (∀ k (hk : k < (decoded_positions r.trace).length),
        (decoded_positions r.trace)[k]
          = ((E.common_tokenize (recreate_sampler E (E.llama_memory_clear s) session).1
              (c_str p)).length : Int) + (k : Int)) ∧
      (∀ pos ∈ decoded_positions r.trace, pos < session.n_ctx - 2) ∧
      (decoded_positions r.trace).length ≤ sampled_count r.trace ∧
      (sampled_count r.trace : Int)
        ≤ (if maxTokens > 0 then maxTokens
           else max 1 (session.n_ctx - ((E.common_tokenize
             (recreate_sampler E (E.llama_memory_clear s) session).1 (c_str p)).length : Int)
             - 2)) := by
  refine ⟨fun hb => nativeGenerate_returns E s (some session) (some p) maxTokens
    (fun session' hs => by cases hs; exact hb), ?_⟩
  intro r hr
  rcases nativeGenerate_cases E s _ (some p) maxTokens r hr with
    ⟨h1, h2, e, he⟩ | ⟨sess, p', s1, batches, hsess, hp, _, hlen, _, htr, hpend, hres⟩
  · rw [h1]
    refine ⟨fun h => absurd rfl h, by simp [decoded_positions], by simp [decoded_positions],
      by simp [decoded_positions], ?_⟩
    simp only [sampled_count, Nat.cast_zero]
    split_ifs <;> omega
  · simp only [Option.some.injEq] at hsess hp
    subst hsess hp
    have hpos := generate_loop_positions E (recreate_sampler E (E.llama_memory_clear s) session).2.1
      (n_predict_of (recreate_sampler E (E.llama_memory_clear s) session).2.1 maxTokens
        (E.common_tokenize (recreate_sampler E (E.llama_memory_clear s) session).1 (c_str p)).length).toNat
      { eng := s1, output := [], pending_utf8 := [], generated_tokens := 0,
        current_position := ((E.common_tokenize
          (recreate_sampler E (E.llama_memory_clear s) session).1 (c_str p)).length : Int) }
    rw [← htr] at hpos
    obtain ⟨p1, p2, p3, p4⟩ := hpos
    have hctx := (recreate_sampler_n_ctx E (E.llama_memory_clear s) session).1
    rw [hctx] at p2
    refine ⟨fun _ => hlen, p1, p2, p4, ?_⟩
    unfold n_predict_of at p3
    rw [hctx] at p3
    split_ifs at p3 ⊢ with h1 h2 h3
    · omega
    · omega
    · omega
    · omega

/-- Witness for C9: a two-byte prompt and five tokens with `maxTokens = 3`. -/
theorem generate_cursor_bounded_witness :
    (1 : Int) ≤ session512.n_batch ∧
    (Java_com_secondsense_llm_LlamaNativeBridge_nativeGenerate
        (scripted piece1) [5, 5, 5, 5, 5] (some session512) (some [104, 105]) 3).map
      (fun r => decoded_positions r.trace) = some [2, 3, 4] ∧
    ∃ r, Java_com_secondsense_llm_LlamaNativeBridge_nativeGenerate
        (scripted piece1) [5, 5, 5, 5, 5] (some session512) (some [104, 105]) 3
        = some r ∧
      ∀ pos ∈ decoded_positions r.trace, pos < session512.n_ctx - 2 :=
  ⟨by decide, rfl, by
    obtain ⟨h0, hall⟩ := generate_cursor_bounded (scripted piece1) [5, 5, 5, 5, 5]
      session512 [104, 105] 3
    obtain ⟨r, h1⟩ := h0 (by decide)
    exact ⟨r, h1, (hall r h1).2.2.1⟩⟩

/-- A prompt of 600 non-zero bytes has 600 tokens under the scripted
tokenizer, whatever the engine state. -/
theorem prompt600_tokens (E : Engine (List Int)) (s : List Int)
    (hE : E.common_tokenize = (scripted piece1).common_tokenize) :
    (E.common_tokenize s (c_str prompt600)).length = 600 := by
  have hc : c_str prompt600 = prompt600 :=
    c_str_of_ne_zero _ (fun b hb => by
      rw [List.eq_of_mem_replicate hb]; decide)
  rw [hE, hc]
  show (List.map (fun (b : Nat) => (b : Int)) prompt600).length = 600
  rw [List.length_map, prompt600, List.length_replicate]

/-- Claim C4, counterexample. The engine cannot re-create the sampler; the prompt
has 600 tokens, more than `n_ctx - 4 = 508`. The call fails with the sampler
error, not with the prompt-too-long error. -/
theorem generate_prompt_too_long_counterexample :
    ((failing_sampler.common_tokenize
        (recreate_sampler failing_sampler (failing_sampler.llama_memory_clear []) session512).1
        (c_str prompt600)).length : Int) ≥ session512.n_ctx - 4 ∧
    (Java_com_secondsense_llm_LlamaNativeBridge_nativeGenerate failing_sampler []
      (some session512) (some prompt600) 8).map (fun r => r.result)
      = some (.error .sampler_init_failed) ∧
    GenError.sampler_init_failed ≠ GenError.prompt_too_long := by
  refine ⟨?_, rfl, by decide⟩
  rw [prompt600_tokens failing_sampler _ rfl]
  decide

/-- Claim C4, amended. For every session and every prompt whose token length is
at least `n_ctx - 4`, `nativeGenerate` returns a failure and submits no batch
to `llama_decode`, neither for the prompt nor for a generated token. The error
is the one of the first failing check: session not initialised, sampler not
re-created, empty token list, and otherwise prompt too long. Conversely a
non-empty prompt with token length below `n_ctx - 4` is never rejected as too
long. -/
theorem generate_rejects_long_prompt {σ : Type} (E : Engine σ) (s : σ)
    (session : NativeSession) (p : List Nat) (maxTokens : Int) :
    (((E.common_tokenize (recreate_sampler E (E.llama_memory_clear s) session).1
        (c_str p)).length : Int) ≥ session.n_ctx - 4 →
      ∃ r, Java_com_secondsense_llm_LlamaNativeBridge_nativeGenerate
          E s (some session) (some p) maxTokens = some r ∧
        r.prompt_batches = [] ∧ r.trace = [] ∧
        (∃ e, r.result = .error e) ∧
        (session.model = true → session.context = true →
          (recreate_sampler E (E.llama_memory_clear s) session).2.2 = false →
          r.result = .error .sampler_init_failed) ∧
        (session.model = true → session.context = true →
          (recreate_sampler E (E.llama_memory_clear s) session).2.2 = true →
          E.common_tokenize (recreate_sampler E (E.llama_memory_clear s) session).1 (c_str p)
            ≠ [] →
          r.result = .error .prompt_too_long)) ∧
    (E.common_tokenize (recreate_sampler E (E.llama_memory_clear s) session).1 (c_str p) ≠ [] →
      ((E.common_tokenize (recreate_sampler E (E.llama_memory_clear s) session).1
        (c_str p)).length : Int) < session.n_ctx - 4 →
      ∀ r, Java_com_secondsense_llm_LlamaNativeBridge_nativeGenerate
          E s (some session) (some p) maxTokens = some r →
        r.result ≠ .error .prompt_too_long) := by
  have hctx := (recreate_sampler_n_ctx E (E.llama_memory_clear s) session).1
  constructor
  · intro hlen
    unfold Java_com_secondsense_llm_LlamaNativeBridge_nativeGenerate
    dsimp only
    split_ifs with h1 h2 h3 h4
    · refine ⟨_, rfl, rfl, rfl, ⟨_, rfl⟩, ?_, ?_⟩
      · intro hm hc _
        rcases h1 with h1 | h1
        · rw [hm] at h1; cases h1
        · rw [hc] at h1; cases h1
      · intro hm hc _
        rcases h1 with h1 | h1
        · rw [hm] at h1; cases h1
        · rw [hc] at h1; cases h1
    · refine ⟨_, rfl, rfl, rfl, ⟨_, rfl⟩, fun _ _ _ => rfl, ?_⟩
      intro _ _ hs
      rw [h2] at hs; cases hs
    · refine ⟨_, rfl, rfl, rfl, ⟨_, rfl⟩, ?_, fun _ _ _ hne => absurd h3 hne⟩
      intro _ _ hs
      exact absurd hs h2
    · refine ⟨_, rfl, rfl, rfl, ⟨_, rfl⟩, ?_, fun _ _ _ _ => rfl⟩
      intro _ _ hs
      exact absurd hs h2
    · exfalso
      apply h4
      rw [hctx]
      exact hlen
  · intro hne hlen r hr
    unfold Java_com_secondsense_llm_LlamaNativeBridge_nativeGenerate at hr
    dsimp only at hr
    split_ifs at hr with h1 h2 h3
    · simp at hr; subst hr; simp
    · simp at hr; subst hr; simp
    · rw [hctx] at h3; omega
    · split at hr
      · cases hr
      · split_ifs at hr with h5 h6
        · simp at hr; subst hr; simp
        · simp at hr; subst hr; simp
        · simp at hr; subst hr; simp

/-- Witness for the amended C4: a 600-token prompt on a 512-token context with
a working sampler is rejected as too long, with no decode. -/
theorem generate_rejects_long_prompt_witness :
    (((scripted piece1).common_tokenize
        (recreate_sampler (scripted piece1) ((scripted piece1).llama_memory_clear [])
          session512).1
        (c_str prompt600)).length : Int) ≥ session512.n_ctx - 4 ∧
    ∃ r, Java_com_secondsense_llm_LlamaNativeBridge_nativeGenerate (scripted piece1) []
        (some session512) (some prompt600) 8 = some r ∧
      r.prompt_batches = [] ∧ r.trace = [] ∧ r.result = .error .prompt_too_long := by
  have h := prompt600_tokens (scripted piece1)
    (recreate_sampler (scripted piece1) ((scripted piece1).llama_memory_clear []) session512).1
    rfl
  have hlen : (((scripted piece1).common_tokenize
      (recreate_sampler (scripted piece1) ((scripted piece1).llama_memory_clear [])
        session512).1
      (c_str prompt600)).length : Int) ≥ session512.n_ctx - 4 := by
    rw [h]; decide
  have hne : (scripted piece1).common_tokenize
      (recreate_sampler (scripted piece1) ((scripted piece1).llama_memory_clear [])
        session512).1
      (c_str prompt600) ≠ [] := by
    intro h0
    rw [h0] at h
    cases h
  obtain ⟨r, h1, h2, h3, _, _, h6⟩ := (generate_rejects_long_prompt (scripted piece1) []
    session512 prompt600 8).1 hlen
  exact ⟨hlen, r, h1, h2, h3, h6 rfl rfl rfl hne⟩

/-! ## Backend reference count and session lifecycle: claims C5, C6, C7 -/

/-- The invariant of the backend reference count: it is not negative and the
engine is initialised exactly when it is positive. -/
theorem ensure_backend_initialized_inv (w : World)
    (h : 0 ≤ w.g_backend_ref_count ∧ (w.backend_up = true ↔ 0 < w.g_backend_ref_count)) :
    0 ≤ (ensure_backend_initialized w).g_backend_ref_count ∧
    ((ensure_backend_initialized w).backend_up = true
      ↔ 0 < (ensure_backend_initialized w).g_backend_ref_count) := by
  obtain ⟨h1, h2⟩ := h
  unfold ensure_backend_initialized
  dsimp only
  split_ifs with h0
  · simp; omega
  · simp only [h2]
    constructor
    · omega
    · constructor <;> intro <;> omega

theorem release_backend_inv (w : World)
    (h : 0 ≤ w.g_backend_ref_count ∧ (w.backend_up = true ↔ 0 < w.g_backend_ref_count)) :
    0 ≤ (release_backend w).g_backend_ref_count ∧
    ((release_backend w).backend_up = true ↔ 0 < (release_backend w).g_backend_ref_count) := by
  obtain ⟨h1, h2⟩ := h
  unfold release_backend
  dsimp only
  split_ifs with h0 h3
  · exact ⟨h1, h2⟩
  · simp [h3]
  · simp only [h2]
    constructor
    · omega
    · constructor <;> intro <;> omega

theorem run_backend_inv (ops : List BackendOp) (w : World)
    (h : 0 ≤ w.g_backend_ref_count ∧ (w.backend_up = true ↔ 0 < w.g_backend_ref_count)) :
    0 ≤ (run_backend ops w).g_backend_ref_count ∧
    ((run_backend ops w).backend_up = true ↔ 0 < (run_backend ops w).g_backend_ref_count) := by
  induction ops generalizing w with
  | nil => simpa [run_backend] using h
  | cons op ops ih =>
    simp only [run_backend, List.foldl_cons]
    apply ih
    cases op with
    | acquire => exact ensure_backend_initialized_inv w h
    | release => exact release_backend_inv w h
    | unload_zero => simpa [BackendOp.apply, Java_com_secondsense_llm_LlamaNativeBridge_nativeUnloadModel] using h

/-- Claim C6. After every finite sequence of `ensure_backend_initialized`,
`release_backend` and `nativeUnloadModel(0)` calls from the start-up state the
reference count is not negative and the engine is initialised exactly when the
count is positive. In such a state `release_backend` at count 0 changes
nothing (only the model's call counter records the call), and
`nativeUnloadModel(0)` changes nothing at all. Whatever operation comes next,
it calls `llama_backend_init` exactly when it takes the count from 0 to 1 and
`llama_backend_free` exactly when it takes the count from 1 to 0, at most once
each. -/
theorem backend_count_never_negative (ops : List BackendOp) :
    let w := run_backend ops World.init
    0 ≤ w.g_backend_ref_count ∧
    (w.backend_up = true ↔ 0 < w.g_backend_ref_count) ∧
    (w.g_backend_ref_count = 0 →
      release_backend w = { w with release_calls := w.release_calls + 1 }) ∧
    Java_com_secondsense_llm_LlamaNativeBridge_nativeUnloadModel w 0 = some w ∧
    ∀ op : BackendOp,
      ((op.apply w).init_calls = w.init_calls + 1 ↔
        (w.g_backend_ref_count = 0 ∧ (op.apply w).g_backend_ref_count = 1)) ∧
      ((op.apply w).init_calls = w.init_calls ∨ (op.apply w).init_calls = w.init_calls + 1) ∧
      ((op.apply w).free_calls = w.free_calls + 1 ↔
        (w.g_backend_ref_count = 1 ∧ (op.apply w).g_backend_ref_count = 0)) ∧
      ((op.apply w).free_calls = w.free_calls ∨ (op.apply w).free_calls = w.free_calls + 1) := by
  intro w
  have hinv : 0 ≤ w.g_backend_ref_count ∧ (w.backend_up = true ↔ 0 < w.g_backend_ref_count) :=
    run_backend_inv ops World.init (by simp [World.init])
  refine ⟨hinv.1, hinv.2, ?_, by simp [Java_com_secondsense_llm_LlamaNativeBridge_nativeUnloadModel], ?_⟩
  · intro h0
    simp [release_backend, h0]
  · intro op
    have h1 := hinv.1
    cases op with
    | acquire =>
      simp only [BackendOp.apply, ensure_backend_initialized]
      split_ifs with h0
      · simp [h0]
      · simp
        omega
    | release =>
      simp only [BackendOp.apply, release_backend]
      split_ifs with h0 h3
      · simp
        omega
      · simp
        omega
      · simp
        omega
    | unload_zero =>
      simp [BackendOp.apply, Java_com_secondsense_llm_LlamaNativeBridge_nativeUnloadModel]
      omega

/-- Witness for C6: after acquire, release, release the count is 0 again, and
one more `release_backend` changes nothing but the call counter. -/
theorem backend_count_never_negative_witness :
    (run_backend [.acquire, .release, .release] World.init).g_backend_ref_count = 0 ∧
    release_backend (run_backend [.acquire, .release, .release] World.init)
      = { run_backend [.acquire, .release, .release] World.init with
          release_calls := (run_backend [.acquire, .release, .release] World.init).release_calls
            + 1 } :=
  ⟨rfl, (backend_count_never_negative [.acquire, .release, .release]).2.2.1 rfl⟩

/-- The exception of a failing load attempt: the one of the first creation
call that fails. -/
theorem nativeLoadModel_fail (w : World) (path : List Nat) (c t : Int) (o : LoadOutcome)
    (hp : path ≠ []) (hc : 0 ≤ w.g_backend_ref_count)
    (hup : w.backend_up = true ↔ 0 < w.g_backend_ref_count)
    (hfail : (o.model_ok && o.context_ok && o.batch_ok && o.sampler_ok) = false) :
    (Java_com_secondsense_llm_LlamaNativeBridge_nativeLoadModel w (some path) c t o).2 = .error
      (if o.model_ok = false then LoadError.model_load_failed
       else if o.context_ok = false then LoadError.context_create_failed
       else if o.batch_ok = false then LoadError.batch_alloc_failed
       else LoadError.sampler_init_failed) ∧
    (Java_com_secondsense_llm_LlamaNativeBridge_nativeLoadModel
        w (some path) c t o).1.g_backend_ref_count = w.g_backend_ref_count ∧
    (Java_com_secondsense_llm_LlamaNativeBridge_nativeLoadModel
        w (some path) c t o).1.release_calls = w.release_calls + 1 ∧
    (Java_com_secondsense_llm_LlamaNativeBridge_nativeLoadModel
        w (some path) c t o).1.models = w.models ∧
    (Java_com_secondsense_llm_LlamaNativeBridge_nativeLoadModel
        w (some path) c t o).1.contexts = w.contexts ∧
    (Java_com_secondsense_llm_LlamaNativeBridge_nativeLoadModel
        w (some path) c t o).1.batches = w.batches ∧
    (Java_com_secondsense_llm_LlamaNativeBridge_nativeLoadModel
        w (some path) c t o).1.samplers = w.samplers ∧
    (Java_com_secondsense_llm_LlamaNativeBridge_nativeLoadModel
        w (some path) c t o).1.session_objects = w.session_objects ∧
    (Java_com_secondsense_llm_LlamaNativeBridge_nativeLoadModel
        w (some path) c t o).1.heap = w.heap ∧
    (Java_com_secondsense_llm_LlamaNativeBridge_nativeLoadModel
        w (some path) c t o).1.next_addr = w.next_addr ∧
    (Java_com_secondsense_llm_LlamaNativeBridge_nativeLoadModel
        w (some path) c t o).1.backend_up = w.backend_up := by
  by_cases h0 : w.g_backend_ref_count = 0
  · have hdown : w.backend_up = false := by
      cases hb : w.backend_up with
      | false => rfl
      | true => have := hup.mp hb; omega
    rcases o with ⟨_ | _, _ | _, _ | _, _ | _⟩ <;>
      simp [Java_com_secondsense_llm_LlamaNativeBridge_nativeLoadModel, hp, ensure_backend_initialized, release_backend, free_session,
        World.llama_model_load_from_file, World.llama_init_from_model, World.llama_batch_init,
        World.recreate_sampler, World.common_sampler_init, World.common_sampler_free,
        World.llama_batch_free, World.llama_free, World.llama_model_free,
        World.delete_session_object, NativeSession.empty, h0, hdown] at hfail ⊢
  · have h1 : ¬ (w.g_backend_ref_count + 1 ≤ 0) := by omega
    have h3 : 0 < w.g_backend_ref_count := by omega
    have h4 : w.backend_up = true := hup.mpr h3
    rcases o with ⟨_ | _, _ | _, _ | _, _ | _⟩ <;>
      simp [Java_com_secondsense_llm_LlamaNativeBridge_nativeLoadModel, hp, ensure_backend_initialized, release_backend, free_session,
        World.llama_model_load_from_file, World.llama_init_from_model, World.llama_batch_init,
        World.recreate_sampler, World.common_sampler_init, World.common_sampler_free,
        World.llama_batch_free, World.llama_free, World.llama_model_free,
        World.delete_session_object, NativeSession.empty, h0, h1, h3, h4] at hfail ⊢

/-- A load attempt in which every creation call succeeds. -/
theorem nativeLoadModel_ok (w : World) (path : List Nat) (c t : Int) (o : LoadOutcome)
    (hp : path ≠ [])
    (hall : (o.model_ok && o.context_ok && o.batch_ok && o.sampler_ok) = true) :
    (Java_com_secondsense_llm_LlamaNativeBridge_nativeLoadModel
        w (some path) c t o).2 = .ok w.next_addr ∧
    (Java_com_secondsense_llm_LlamaNativeBridge_nativeLoadModel
        w (some path) c t o).1.g_backend_ref_count = w.g_backend_ref_count + 1 ∧
    (Java_com_secondsense_llm_LlamaNativeBridge_nativeLoadModel
        w (some path) c t o).1.next_addr = w.next_addr + 1 ∧
    (Java_com_secondsense_llm_LlamaNativeBridge_nativeLoadModel w (some path) c t o).1.heap
      = (fun a => if a = w.next_addr then
          some { model := true, context := true, batch_token := true, batch_embd := false,
                 sampler := true, n_ctx := max 512 c, n_batch := min (max 512 c) 512 }
        else w.heap a) ∧
    (Java_com_secondsense_llm_LlamaNativeBridge_nativeLoadModel
        w (some path) c t o).1.context_params_log.head?
      = some { n_ctx := max 512 c, n_batch := min (max 512 c) 512,
               n_ubatch := min (max 512 c) 512, n_threads := max 1 t,
               n_threads_batch := max 1 t } ∧
    (Java_com_secondsense_llm_LlamaNativeBridge_nativeLoadModel w (some path) c t o).1.backend_up
      = (if w.g_backend_ref_count = 0 then true else w.backend_up) ∧
    (Java_com_secondsense_llm_LlamaNativeBridge_nativeLoadModel
        w (some path) c t o).1.release_calls = w.release_calls ∧
    (Java_com_secondsense_llm_LlamaNativeBridge_nativeLoadModel
        w (some path) c t o).1.models = w.models + 1 ∧
    (Java_com_secondsense_llm_LlamaNativeBridge_nativeLoadModel
        w (some path) c t o).1.contexts = w.contexts + 1 ∧
    (Java_com_secondsense_llm_LlamaNativeBridge_nativeLoadModel
        w (some path) c t o).1.batches = w.batches + 1 ∧
    (Java_com_secondsense_llm_LlamaNativeBridge_nativeLoadModel
        w (some path) c t o).1.samplers = w.samplers + 1 ∧
    (Java_com_secondsense_llm_LlamaNativeBridge_nativeLoadModel
        w (some path) c t o).1.session_objects = w.session_objects + 1 := by
  rcases o with ⟨_ | _, _ | _, _ | _, _ | _⟩ <;> simp at hall
  by_cases h0 : w.g_backend_ref_count = 0
  · simp [Java_com_secondsense_llm_LlamaNativeBridge_nativeLoadModel, hp, ensure_backend_initialized,
      World.llama_model_load_from_file, World.llama_init_from_model, World.llama_batch_init,
      World.recreate_sampler, World.common_sampler_init, NativeSession.empty, h0]
  · simp [Java_com_secondsense_llm_LlamaNativeBridge_nativeLoadModel, hp, ensure_backend_initialized,
      World.llama_model_load_from_file, World.llama_init_from_model, World.llama_batch_init,
      World.recreate_sampler, World.common_sampler_init, NativeSession.empty, h0]

theorem nativeLoadModel_result (w : World) (modelPath : Option (List Nat)) (c t : Int)
    (o : LoadOutcome) (w' : World) (h : Nat)
    (hload : Java_com_secondsense_llm_LlamaNativeBridge_nativeLoadModel
        w modelPath c t o = (w', .ok h)) :
    ∃ path, modelPath = some path ∧ path ≠ [] ∧
      (o.model_ok && o.context_ok && o.batch_ok && o.sampler_ok) = true := by
  cases modelPath with
  | none => simp [Java_com_secondsense_llm_LlamaNativeBridge_nativeLoadModel] at hload
  | some path =>
    by_cases hp : path = []
    · simp [Java_com_secondsense_llm_LlamaNativeBridge_nativeLoadModel, hp] at hload
    · refine ⟨path, rfl, hp, ?_⟩
      by_contra hfail
      have hfail' : (o.model_ok && o.context_ok && o.batch_ok && o.sampler_ok) = false := by
        simpa using hfail
      rcases o with ⟨_ | _, _ | _, _ | _, _ | _⟩ <;> simp at hfail' <;>
        simp [Java_com_secondsense_llm_LlamaNativeBridge_nativeLoadModel, hp, World.llama_model_load_from_file,
          World.llama_init_from_model, World.llama_batch_init, World.recreate_sampler,
          World.common_sampler_init, NativeSession.empty] at hload

theorem free_session_frame (w : World) (session : NativeSession) :
    (free_session w session).1.g_backend_ref_count = w.g_backend_ref_count ∧
    (free_session w session).1.backend_up = w.backend_up ∧
    (free_session w session).1.heap = w.heap ∧
    (free_session w session).1.next_addr = w.next_addr ∧
    (free_session w session).1.release_calls = w.release_calls ∧
    (free_session w session).1.session_objects = w.session_objects ∧
    (free_session w session).1.samplers = w.samplers - (if session.sampler then 1 else 0) ∧
    (free_session w session).1.batches
      = w.batches - (if session.batch_token ∨ session.batch_embd then 1 else 0) ∧
    (free_session w session).1.contexts = w.contexts - (if session.context then 1 else 0) ∧
    (free_session w session).1.models = w.models - (if session.model then 1 else 0) := by
  rcases session with ⟨_ | _, _ | _, _ | _, _ | _, _ | _, n1, n2⟩ <;>
    simp [free_session, World.common_sampler_free, World.llama_batch_free, World.llama_free,
      World.llama_model_free]

/-- Unloading a live session when the count is positive. -/
theorem nativeUnloadModel_live (w : World) (h : Nat) (session : NativeSession)
    (hh : h ≠ 0) (hl : w.heap h = some session) (hpos : 0 < w.g_backend_ref_count)
    (hup : w.backend_up = true) :
    ∃ w', Java_com_secondsense_llm_LlamaNativeBridge_nativeUnloadModel w h = some w' ∧
      w'.g_backend_ref_count = w.g_backend_ref_count - 1 ∧
      w'.heap = (fun a => if a = h then none else w.heap a) ∧
      w'.next_addr = w.next_addr ∧
      (w'.backend_up = true ↔ 0 < w'.g_backend_ref_count) ∧
      w'.release_calls = w.release_calls + 1 ∧
      w'.session_objects = w.session_objects - 1 ∧
      w'.samplers = w.samplers - (if session.sampler then 1 else 0) ∧
      w'.batches = w.batches - (if session.batch_token ∨ session.batch_embd then 1 else 0) ∧
      w'.contexts = w.contexts - (if session.context then 1 else 0) ∧
      w'.models = w.models - (if session.model then 1 else 0) := by
  obtain ⟨f1, f2, f3, f4, f5, f6, f7, f8, f9, f10⟩ := free_session_frame w session
  have hn : ¬ (w.g_backend_ref_count ≤ 0) := by omega
  refine ⟨release_backend { (free_session w session).1.delete_session_object with
    heap := fun a => if a = h then none else (free_session w session).1.heap a }, ?_, ?_⟩
  · simp [Java_com_secondsense_llm_LlamaNativeBridge_nativeUnloadModel, hh, hl]
  simp only [release_backend, World.delete_session_object, f1, f2, f3, f4, f5, f6, f7, f8, f9,
    f10, hn, if_false]
  by_cases h1 : w.g_backend_ref_count - 1 = 0
  · simp [h1]
  · simp [h1, hup]
    omega

theorem countP_remove (n : Nat) (p : Nat → Bool) (h : Nat) (hlt : h < n) (hp : p h = true) :
    (List.range n).countP (fun a => if a = h then false else p a) + 1
      = (List.range n).countP p := by
  induction n with
  | zero => omega
  | succ n ih =>
    rw [List.range_succ, List.countP_append, List.countP_append]
    by_cases hn : h = n
    · subst hn
      have hsame : (List.range h).countP (fun a => if a = h then false else p a)
          = (List.range h).countP p := by
        apply List.countP_congr
        intro a ha
        have : a ≠ h := by
          have := List.mem_range.mp ha
          omega
        simp [this]
      rw [hsame]
      simp [List.countP_singleton, hp]
    · have hlt' : h < n := by omega
      have := ih hlt'
      have hne : n ≠ h := fun e => hn e.symm
      simp only [List.countP_singleton, hne, if_false]
      omega

theorem HostInv_init : HostInv World.init := by
  simp [HostInv, World.init]

theorem HostInv_load (w : World) (modelPath : Option (List Nat)) (c t : Int) (o : LoadOutcome)
    (hinv : HostInv w) : HostInv (Java_com_secondsense_llm_LlamaNativeBridge_nativeLoadModel
        w modelPath c t o).1 := by
  obtain ⟨i1, i2, i3, i4, i5, i6⟩ := hinv
  cases modelPath with
  | none => exact ⟨i1, i2, i3, i4, i5, i6⟩
  | some path =>
    by_cases hp : path = []
    · simpa [Java_com_secondsense_llm_LlamaNativeBridge_nativeLoadModel, hp] using (⟨i1, i2, i3, i4, i5, i6⟩ : HostInv w)
    · cases hall : (o.model_ok && o.context_ok && o.batch_ok && o.sampler_ok) with
      | false =>
        obtain ⟨_, f2, _, _, _, _, _, _, f9, f10, f11⟩ :=
          nativeLoadModel_fail w path c t o hp i1 i2 hall
        unfold HostInv
        rw [f2, f9, f10, f11]
        exact ⟨i1, i2, i3, i4, i5, i6⟩
      | true =>
        obtain ⟨_, k2, k3, k4, _, k6, _⟩ := nativeLoadModel_ok w path c t o hp hall
        unfold HostInv
        rw [k2, k3, k4, k6]
        refine ⟨by omega, ?_, ?_, ?_, by omega, ?_⟩
        · split_ifs with h0
          · simp; omega
          · rw [i2]; constructor <;> intro <;> omega
        · rw [List.range_succ, List.countP_append]
          have hsame : ∀ v : Option NativeSession, (List.range w.next_addr).countP
              (fun a => (if a = w.next_addr then v else w.heap a).isSome)
              = (List.range w.next_addr).countP (fun a => (w.heap a).isSome) := by
            intro v
            apply List.countP_congr
            intro a ha
            have : a ≠ w.next_addr := by
              have := List.mem_range.mp ha
              omega
            simp [this]
          rw [hsame]
          simp [List.countP_singleton]
          omega
        · intro a ha
          have : a ≠ w.next_addr := by omega
          simp only [this, if_false]
          exact i4 a (by omega)
        · have : (0 : Nat) ≠ w.next_addr := by omega
          simp only [this, if_false]
          exact i6

theorem HostInv_live_pos (w : World) (hinv : HostInv w) (h : Nat) (session : NativeSession)
    (hl : w.heap h = some session) :
    h ≠ 0 ∧ h < w.next_addr ∧ 0 < w.g_backend_ref_count ∧ w.backend_up = true := by
  obtain ⟨i1, i2, i3, i4, i5, i6⟩ := hinv
  have hh : h ≠ 0 := by
    intro h0
    rw [h0, i6] at hl
    cases hl
  have hlt : h < w.next_addr := by
    by_contra hge
    rw [i4 h (by omega)] at hl
    cases hl
  have hpos : 0 < (List.range w.next_addr).countP (fun a => (w.heap a).isSome) := by
    rw [List.countP_pos_iff]
    exact ⟨h, List.mem_range.mpr hlt, by simp [hl]⟩
  have hc : 0 < w.g_backend_ref_count := by omega
  exact ⟨hh, hlt, hc, i2.mpr hc⟩

theorem HostInv_unload (w w' : World) (h : Nat) (hinv : HostInv w)
    (hun : Java_com_secondsense_llm_LlamaNativeBridge_nativeUnloadModel
        w h = some w') : HostInv w' := by
  by_cases h0 : h = 0
  · simp [Java_com_secondsense_llm_LlamaNativeBridge_nativeUnloadModel, h0] at hun
    rw [← hun]; exact hinv
  · cases hl : w.heap h with
    | none => simp [Java_com_secondsense_llm_LlamaNativeBridge_nativeUnloadModel, h0, hl] at hun
    | some session =>
      obtain ⟨hh, hlt, hpos, hup⟩ := HostInv_live_pos w hinv h session hl
      obtain ⟨w'', hw'', u1, u2, u3, u4, _⟩ := nativeUnloadModel_live w h session hh hl hpos hup
      rw [hun] at hw''
      simp only [Option.some.injEq] at hw''
      subst hw''
      obtain ⟨i1, i2, i3, i4, i5, i6⟩ := hinv
      unfold HostInv
      rw [u1, u2, u3]
      refine ⟨by omega, by rw [← u1]; exact u4, ?_, ?_, i5, ?_⟩
      · have hrem := countP_remove w.next_addr (fun a => (w.heap a).isSome) h hlt (by simp [hl])
        have hfun : (fun a => (if a = h then none else w.heap a).isSome)
            = (fun a => if a = h then false else (w.heap a).isSome) := by
          funext a
          split_ifs <;> simp
        rw [hfun]
        simp only at hrem
        omega
      · intro a ha
        show (if a = h then none else w.heap a) = none
        split_ifs
        · rfl
        · exact i4 a ha
      · show (if 0 = h then none else w.heap 0) = none
        split_ifs
        · rfl
        · exact i6

theorem HostInv_run (ops : List HostOp) (w w' : World) (hinv : HostInv w)
    (hrun : run_host ops w = some w') : HostInv w' := by
  induction ops generalizing w with
  | nil =>
    simp [run_host] at hrun
    rw [← hrun]; exact hinv
  | cons op ops ih =>
    simp only [run_host] at hrun
    cases hop : op.apply w with
    | none => simp [hop] at hrun
    | some w1 =>
      rw [hop] at hrun
      apply ih w1 _ hrun
      cases op with
      | load p c t o =>
        simp only [HostOp.apply, Option.some.injEq] at hop
        rw [← hop]
        exact HostInv_load w p c t o hinv
      | unload h =>
        exact HostInv_unload w w1 h hinv hop

/-- Claim C5. In every state `w` the host can reach by load and unload calls:
a load attempt with a non-empty path in which a creation call fails (model
load, context create, batch allocate or sampler init) throws the error of the
first failing stage, calls `release_backend` exactly once, and leaves the
reference count, the live models, contexts, batches, samplers and session
objects and the session heap as they were before the attempt. A successful
load returns a non-zero handle and raises the count by one without calling
`release_backend`; unloading that handle at once restores the count and every
resource counter to the values before the load, with one `release_backend`
call; and after any further host calls that leave the handle live, unloading
it is defined and lowers the count by exactly one, so the load and its unload
together contribute zero to the count. -/
theorem load_unload_balanced (ops : List HostOp) (w : World)
    (hr : run_host ops World.init = some w) :
    (∀ (path : List Nat) (c t : Int) (o : LoadOutcome), path ≠ [] →
      (o.model_ok && o.context_ok && o.batch_ok && o.sampler_ok) = false →
      (Java_com_secondsense_llm_LlamaNativeBridge_nativeLoadModel w (some path) c t o).2 = .error
        (if o.model_ok = false then LoadError.model_load_failed
         else if o.context_ok = false then LoadError.context_create_failed
         else if o.batch_ok = false then LoadError.batch_alloc_failed
         else LoadError.sampler_init_failed) ∧
      (Java_com_secondsense_llm_LlamaNativeBridge_nativeLoadModel
          w (some path) c t o).1.g_backend_ref_count = w.g_backend_ref_count ∧
      (Java_com_secondsense_llm_LlamaNativeBridge_nativeLoadModel
          w (some path) c t o).1.release_calls = w.release_calls + 1 ∧
      (Java_com_secondsense_llm_LlamaNativeBridge_nativeLoadModel
          w (some path) c t o).1.models = w.models ∧
      (Java_com_secondsense_llm_LlamaNativeBridge_nativeLoadModel
          w (some path) c t o).1.contexts = w.contexts ∧
      (Java_com_secondsense_llm_LlamaNativeBridge_nativeLoadModel
          w (some path) c t o).1.batches = w.batches ∧
      (Java_com_secondsense_llm_LlamaNativeBridge_nativeLoadModel
          w (some path) c t o).1.samplers = w.samplers ∧
      (Java_com_secondsense_llm_LlamaNativeBridge_nativeLoadModel
          w (some path) c t o).1.session_objects = w.session_objects ∧
      (Java_com_secondsense_llm_LlamaNativeBridge_nativeLoadModel
          w (some path) c t o).1.heap = w.heap) ∧
    (∀ (modelPath : Option (List Nat)) (c t : Int) (o : LoadOutcome) (w1 : World) (h : Nat),
      Java_com_secondsense_llm_LlamaNativeBridge_nativeLoadModel w modelPath c t o = (w1, .ok h) →
      h ≠ 0 ∧
      w1.g_backend_ref_count = w.g_backend_ref_count + 1 ∧
      w1.release_calls = w.release_calls ∧
      (∃ w3, Java_com_secondsense_llm_LlamaNativeBridge_nativeUnloadModel w1 h = some w3 ∧
        w3.g_backend_ref_count = w.g_backend_ref_count ∧
        w3.release_calls = w.release_calls + 1 ∧
        w3.models = w.models ∧ w3.contexts = w.contexts ∧ w3.batches = w.batches ∧
        w3.samplers = w.samplers ∧ w3.session_objects = w.session_objects) ∧
      (∀ (mid : List HostOp) (w2 : World), run_host mid w1 = some w2 → w2.heap h ≠ none →
        ∃ w3, Java_com_secondsense_llm_LlamaNativeBridge_nativeUnloadModel w2 h = some w3 ∧
          w3.g_backend_ref_count = w2.g_backend_ref_count - 1 ∧
          (w1.g_backend_ref_count - w.g_backend_ref_count)
            + (w3.g_backend_ref_count - w2.g_backend_ref_count) = 0 ∧
          w3.release_calls = w2.release_calls + 1)) := by
  have hinv : HostInv w := HostInv_run ops World.init w HostInv_init hr
  constructor
  · intro path c t o hp hfail
    obtain ⟨f1, f2, f3, f4, f5, f6, f7, f8, f9, _⟩ :=
      nativeLoadModel_fail w path c t o hp hinv.1 hinv.2.1 hfail
    exact ⟨f1, f2, f3, f4, f5, f6, f7, f8, f9⟩
  · intro modelPath c t o w1 h hload
    obtain ⟨path, rfl, hp, hall⟩ := nativeLoadModel_result w modelPath c t o w1 h hload
    obtain ⟨k1, k2, k3, k4, k5, k6, k7, k8, k9, k10, k11, k12⟩ :=
      nativeLoadModel_ok w path c t o hp hall
    have hinv1 : HostInv w1 := by
      have := HostInv_load w (some path) c t o hinv
      rw [hload] at this
      exact this
    simp only [hload] at k1 k2 k3 k4 k5 k6 k7 k8 k9 k10 k11 k12
    simp only [Except.ok.injEq] at k1
    subst k1
    have hlive : w1.heap w.next_addr
        = some { model := true, context := true, batch_token := true, batch_embd := false,
                 sampler := true, n_ctx := max 512 c, n_batch := min (max 512 c) 512 } := by
      rw [k4]; simp
    obtain ⟨hh, _, hpos, hup⟩ := HostInv_live_pos w1 hinv1 _ _ hlive
    refine ⟨hh, k2, k7, ?_, ?_⟩
    · obtain ⟨w3, hw3, u1, _, _, _, u5, u6, u7, u8, u9, u10⟩ :=
        nativeUnloadModel_live w1 _ _ hh hlive hpos hup
      refine ⟨w3, hw3, by omega, by omega, ?_, ?_, ?_, ?_, by omega⟩
      · rw [u10, k8]; simp
      · rw [u9, k9]; simp
      · rw [u8, k10]; simp
      · rw [u7, k11]; simp
    · intro mid w2 hmid hlive2
      have hinv2 : HostInv w2 := HostInv_run mid w1 w2 hinv1 hmid
      cases hs : w2.heap w.next_addr with
      | none => exact absurd hs hlive2
      | some session =>
        obtain ⟨hh2, _, hpos2, hup2⟩ := HostInv_live_pos w2 hinv2 _ _ hs
        obtain ⟨w3, hw3, u1, _, _, _, u5, _⟩ :=
          nativeUnloadModel_live w2 _ _ hh2 hs hpos2 hup2
        exact ⟨w3, hw3, u1, by omega, u5⟩

/-- Witness for C5: from the start-up state, a load whose context creation
fails leaves the count at 0, and a successful load followed by the unload of
its handle does too. -/
theorem load_unload_balanced_witness :
    run_host [] World.init = some World.init ∧
    (Java_com_secondsense_llm_LlamaNativeBridge_nativeLoadModel World.init (some [47]) 2048 4
      { model_ok := true, context_ok := false, batch_ok := true, sampler_ok := true }).1.g_backend_ref_count
      = 0 ∧
    (Java_com_secondsense_llm_LlamaNativeBridge_nativeLoadModel World.init (some [47]) 2048 4
      { model_ok := true, context_ok := false, batch_ok := true, sampler_ok := true }).1.release_calls
      = 1 ∧
    ∃ w3, Java_com_secondsense_llm_LlamaNativeBridge_nativeUnloadModel (Java_com_secondsense_llm_LlamaNativeBridge_nativeLoadModel
        World.init (some [47]) 2048 4
        { model_ok := true, context_ok := true, batch_ok := true, sampler_ok := true }).1 1
        = some w3 ∧
      w3.g_backend_ref_count = 0 := by
  have h := load_unload_balanced [] World.init rfl
  obtain ⟨_, f2, f3, _⟩ := h.1 [47] 2048 4
    { model_ok := true, context_ok := false, batch_ok := true, sampler_ok := true }
    (by decide) (by decide)
  obtain ⟨_, _, _, ⟨w3, hw3, hc, _⟩, _⟩ := h.2 (some [47]) 2048 4
    { model_ok := true, context_ok := true, batch_ok := true, sampler_ok := true }
    (Java_com_secondsense_llm_LlamaNativeBridge_nativeLoadModel World.init (some [47]) 2048 4
      { model_ok := true, context_ok := true, batch_ok := true, sampler_ok := true }).1 1 rfl
  exact ⟨rfl, f2, f3, w3, hw3, hc⟩

/-- Claim C7. After a successful load with requested context size `c` and
thread count `t`, the session behind the returned handle has context size
`max 512 c`, which is exactly 512 for every request of at most 511, and batch
width `min n_ctx 512`, which is always exactly 512; the context was created
with these sizes (batch and micro-batch width 512) and with thread counts
`max 1 t`. -/
theorem load_clamps_context_and_threads (w : World) (modelPath : Option (List Nat))
    (c t : Int) (o : LoadOutcome) (w' : World) (h : Nat)
    (hload : Java_com_secondsense_llm_LlamaNativeBridge_nativeLoadModel
        w modelPath c t o = (w', .ok h)) :
    ∃ session, w'.heap h = some session ∧
      session.n_ctx = max 512 c ∧
      (c ≤ 511 → session.n_ctx = 512) ∧
      session.n_batch = min session.n_ctx 512 ∧
      session.n_batch = 512 ∧
      w'.context_params_log.head?
        = some { n_ctx := max 512 c, n_batch := 512, n_ubatch := 512,
                 n_threads := max 1 t, n_threads_batch := max 1 t } := by
  obtain ⟨path, rfl, hp, hall⟩ := nativeLoadModel_result w modelPath c t o w' h hload
  obtain ⟨k1, _, _, k4, k5, _⟩ := nativeLoadModel_ok w path c t o hp hall
  simp only [hload] at k1 k4 k5
  simp only [Except.ok.injEq] at k1
  subst k1
  have hmin : min (max 512 c) 512 = 512 := by omega
  refine ⟨{ model := true, context := true, batch_token := true, batch_embd := false,
            sampler := true, n_ctx := max 512 c, n_batch := min (max 512 c) 512 },
    by rw [k4]; simp, rfl, ?_, rfl, hmin, ?_⟩
  · intro hc
    show max 512 c = 512
    omega
  · rw [k5, hmin]

/-- Witness for C7: a request for context size 100 and 0 threads. -/
theorem load_clamps_context_and_threads_witness :
    ∃ w', Java_com_secondsense_llm_LlamaNativeBridge_nativeLoadModel World.init (some [47]) 100 0
        { model_ok := true, context_ok := true, batch_ok := true, sampler_ok := true }
        = (w', .ok 1) ∧
      ∃ session, w'.heap 1 = some session ∧ session.n_ctx = 512 ∧ session.n_batch = 512 ∧
        w'.context_params_log.head?
          = some { n_ctx := 512, n_batch := 512, n_ubatch := 512,
                   n_threads := 1, n_threads_batch := 1 } := by
  refine ⟨_, rfl, ?_⟩
  obtain ⟨session, h1, h2, _, _, h5, h6⟩ := load_clamps_context_and_threads World.init
    (some [47]) 100 0
    { model_ok := true, context_ok := true, batch_ok := true, sampler_ok := true } _ 1 rfl
  exact ⟨session, h1, by rw [h2]; decide, h5, by rw [h6]; decide⟩

end SecondSense
